import Mathlib

/-!
Shallow embedding of the message-fetching, batching, summarization and
progress-estimation core of the mcp-telegram repository, together with
proofs of the specification claims about it.

Go integers are modelled as `Int` (or `Nat` where the Go value is a count
or a Unix timestamp that is provably non-negative), Go `time.Time` values
as Unix seconds (`Nat`), with the zero time modelled as `none` of an
`Option Nat` wherever the code distinguishes `IsZero`.  Fallible calls
return `Except`; the remote platform and the LLM provider are oracles
passed in as functions.  `float64` percentages are modelled as exact
rationals.
-/

deriving instance DecidableEq for Except

namespace Mcp

/-! ## Data model (internal/messages/provider_test.go types, part_003) -/

/-- MediaInfo: media attached to a message: the kind tag, with width and
height for photos, file name for documents, URL for web pages. -/
structure MediaInfo where
  type : String
  width : Nat := 0
  height : Nat := 0
  fileName : String := ""
  url : String := ""
  deriving Repr, DecidableEq

/-- Message: a Telegram message with parsed metadata. -/
structure Message where
  id : Int
  date : Nat
  senderID : Int
  senderName : String
  text : String
  replyToID : Int
  media : Option MediaInfo
  entities : List String
  deriving Repr, DecidableEq

/-- FetchOptions: configures message fetching.  Zero `time.Time` fields are
`none`. -/
structure FetchOptions where
  limit : Int := 0
  offsetID : Int := 0
  offsetDate : Option Nat := none
  minDate : Option Nat := none
  maxDate : Option Nat := none
  unreadOnly : Bool := false
  maxCount : Int := 0
  deriving Repr, DecidableEq

/-- FetchResult: messages and metadata from a fetch operation.  The Go
`map[int64]string` caches are modelled as association lists. -/
structure FetchResult where
  chatID : Int := 0
  messages : List Message := []
  users : List (Int × String) := []
  chats : List (Int × String) := []
  count : Nat := 0
  hasMore : Bool := false
  nextID : Int := 0
  total : Nat := 0
  deriving Repr, DecidableEq

/-! ## UTF-16 entity extraction (part_003, extractSubstring) -/

/-- Width of one code point in UTF-16 code units: 2 above U+FFFF, else 1. -/
def utf16Width (c : Char) : Nat :=
  if 0xFFFF < c.toNat then 2 else 1

/-- UTF-16 length of a rune sequence. -/
def utf16Len (cs : List Char) : Nat :=
  (cs.map utf16Width).sum

/-- Scan loop of `extractSubstring`: walks the runes carrying the current
rune index `i`, the current UTF-16 position `pos` and the start rune index
found so far, and returns the start and stop rune indices (Go `start`/`stop`,
with `-1` modelled as `none`). -/
def extractScan (offset endPos : Nat) :
    List Char → Nat → Nat → Option Nat → Option Nat × Option Nat
  | [], _, _, start => (start, none)
  | c :: rest, i, pos, start =>
    let start := if offset ≤ pos ∧ start = none then some i else start
    let pos := pos + utf16Width c
    if endPos ≤ pos then (start, some (i + 1))
    else extractScan offset endPos rest (i + 1) pos start

/-- extractSubstring: extracts a substring using UTF-16 code unit offsets
(Telegram entity positions: emoji above U+FFFF count as 2 units, other
characters as 1). -/
def extractSubstring (s : String) (offset length : Int) : String :=
  if offset < 0 ∨ length ≤ 0 then ""
  else
    let runes := s.data
    let endPos := offset.toNat + length.toNat
    match extractScan offset.toNat endPos runes 0 0 none with
    | (some start, some stop) => String.mk ((runes.drop start).take (stop - start))
    | _ => ""

/-! ## Raw platform responses and decoding (part_003, processHistory) -/

/-- Error kinds of the fetch layer (wrapped with operation names in Go). -/
inductive FetchErr where
  | resolvingPeer (msg : String)
  | gettingMessages (msg : String)
  | unexpectedResponse
  | batchFailed (batchNum : Nat) (inner : FetchErr)
  | canceled
  deriving Repr, DecidableEq

/-- A peer reference: the shapes `extractSender` can switch on
(`GetUserID` / `GetChannelID` / `GetChatID` interfaces, default otherwise). -/
inductive PeerRef where
  | user (id : Int)
  | chat (id : Int)
  | channel (id : Int)
  | other
  deriving Repr, DecidableEq

/-- Media payload of a raw message, by variant; photo variants carry the
decodable width/height pairs of their size list. -/
inductive TgMedia where
  | photo (sizes : List (Nat × Nat))
  | document (fileName : Option String)
  | geo
  | contact
  | webpage (url : Option String)
  | venue
  | poll
  | dice
  | other
  deriving Repr, DecidableEq

/-- Message entity variants handled by the extractor. -/
inductive TgEntity where
  | url (offset length : Int)
  | textURL (u : String)
  | other
  deriving Repr, DecidableEq

/-- A raw `tg.Message` record. -/
structure TgMessage where
  id : Int
  date : Nat
  message : String
  fromID : Option PeerRef
  replyToMsgID : Option Int
  media : Option TgMedia
  entities : List TgEntity
  deriving Repr, DecidableEq

/-- A raw `tg.MessageClass` element: only the `*tg.Message` variant is
decoded, service and empty records are skipped. -/
inductive TgMessageClass where
  | message (m : TgMessage)
  | service
  | empty
  deriving Repr, DecidableEq

/-- A `tg.MessagesMessagesClass` history response.  The full `messages`
variant carries no separate count; the slice and channel variants do. -/
inductive MessagesHistory where
  | messages (msgs : List TgMessageClass) (users chats : List (Int × String))
  | messagesSlice (count : Nat) (msgs : List TgMessageClass)
      (users chats : List (Int × String))
  | channelMessages (count : Nat) (msgs : List TgMessageClass)
      (users chats : List (Int × String))
  | unexpected
  deriving Repr, DecidableEq

/-- Go map indexing with the string zero value as default. -/
def mapLookup (m : List (Int × String)) (k : Int) : String :=
  match m.find? (fun p => p.1 == k) with
  | some p => p.2
  | none => ""

/-- Go map assignment `m[k] = v` on the association-list model. -/
def mapInsert (m : List (Int × String)) (k : Int) (v : String) :
    List (Int × String) :=
  if m.any (fun p => p.1 == k) then
    m.map (fun p => if p.1 == k then (k, v) else p)
  else m ++ [(k, v)]

/-- Merging one name cache into another, entry by entry. -/
def mapMerge (dst src : List (Int × String)) : List (Int × String) :=
  src.foldl (fun acc p => mapInsert acc p.1 p.2) dst

/-- extractSender: sender id and display name from a peer reference, with
"Unknown" for unresolvable peers and empty lookups. -/
def extractSender (peer : PeerRef) (users chats : List (Int × String)) :
    Int × String :=
  let unknownSender := "Unknown"
  match peer with
  | .user id =>
    let name := mapLookup users id
    (id, if name = "" then unknownSender else name)
  | .channel id =>
    let name := mapLookup chats id
    (id, if name = "" then unknownSender else name)
  | .chat id =>
    let name := mapLookup chats id
    (id, if name = "" then unknownSender else name)
  | .other => (0, unknownSender)

/-- extractMediaType: classify media by variant tag; photos additionally
report the largest available width/height. -/
def extractMediaType : TgMedia → MediaInfo
  | .photo sizes =>
    sizes.foldl
      (fun info wh =>
        if info.width < wh.1 then { info with width := wh.1, height := wh.2 }
        else info)
      { type := "photo" }
  | .document fn => { type := "document", fileName := fn.getD "" }
  | .geo => { type := "geo" }
  | .contact => { type := "contact" }
  | .webpage u => { type := "webpage", url := u.getD "" }
  | .venue => { type := "venue" }
  | .poll => { type := "poll" }
  | .dice => { type := "dice" }
  | .other => { type := "other" }

/-- Entity extraction loop: URL entities are cut out of the text by UTF-16
offsets (empty extractions dropped), text-URL entities contribute their URL. -/
def extractEntityList (text : String) : List TgEntity → List String
  | [] => []
  | .url off len :: rest =>
    let extracted := extractSubstring text off len
    if extracted ≠ "" then extracted :: extractEntityList text rest
    else extractEntityList text rest
  | .textURL u :: rest => u :: extractEntityList text rest
  | .other :: rest => extractEntityList text rest

/-- extractMessages: decode the raw records of one page into normalized
messages; records without sender are attributed to the peer. -/
def extractMessages (msgs : List TgMessageClass)
    (users chats : List (Int × String)) (peer : PeerRef) : List Message :=
  msgs.filterMap fun mc =>
    match mc with
    | .message msg =>
      let sender :=
        match msg.fromID with
        | some f => extractSender f users chats
        | none => extractSender peer users chats
      some
        { id := msg.id
          date := msg.date
          senderID := sender.1
          senderName := sender.2
          text := msg.message
          replyToID := msg.replyToMsgID.getD 0
          media := msg.media.map extractMediaType
          entities := extractEntityList msg.message msg.entities }
    | _ => none

/-- Common decomposition of the three accepted history variants:
(raw messages, users, chats, platform total count). -/
def historyParts : MessagesHistory →
    Option (List TgMessageClass × List (Int × String) × List (Int × String) × Nat)
  | .messages msgs users chats => some (msgs, users, chats, msgs.length)
  | .messagesSlice count msgs users chats => some (msgs, users, chats, count)
  | .channelMessages count msgs users chats => some (msgs, users, chats, count)
  | .unexpected => none

/-- processHistory: decode one page response into a single-page FetchResult. -/
def processHistory (history : MessagesHistory) (peer : PeerRef) :
    Except FetchErr FetchResult :=
  match historyParts history with
  | none => .error .unexpectedResponse
  | some (msgs, users, chats, totalCount) =>
    let userMap := mapMerge [] users
    let chatMap := mapMerge [] chats
    let extracted := extractMessages msgs userMap chatMap peer
    .ok
      { users := userMap
        chats := chatMap
        messages := extracted
        count := extracted.length
        total := totalCount
        hasMore := decide (0 < extracted.length) &&
          decide (extracted.length < totalCount)
        nextID :=
          match extracted.getLast? with
          | some m => m.id
          | none => 0 }

/-! ## Paginator (part_003, fetchAllWithPeer) -/

/-- offsetDateBuffer: 24 hours, in seconds. -/
def offsetDateBuffer : Nat := 24 * 60 * 60

/-- Final count/total assignment of `fetchAllWithPeer`. -/
def finalizeResult (r : FetchResult) : FetchResult :=
  { r with count := r.messages.length, total := r.messages.length }

/-- The min-date test of the page collection loop:
`!opts.MinDate.IsZero() && msg.Date.Before(opts.MinDate)`. -/
def minDateHit (minDate : Option Nat) (m : Message) : Bool :=
  match minDate with
  | some d => decide (m.date < d)
  | none => false

/-- Outcome of collecting one page: the appended messages, whether the
min-date boundary was reached, and whether the max-count limit was hit. -/
structure CollectOut where
  collected : List Message
  reachedMin : Bool
  hitMax : Bool
  deriving Repr, DecidableEq

/-- Per-page filter-and-collect loop of `fetchAllWithPeer`; `curLen` is the
number of messages already accumulated from earlier pages. -/
def collectBatch (minDate : Option Nat) (maxCount : Int) :
    Nat → List Message → CollectOut
  | _, [] => ⟨[], false, false⟩
  | curLen, m :: rest =>
    if minDateHit minDate m then ⟨[], true, false⟩
    else if 0 < maxCount ∧ maxCount ≤ (curLen : Int) + 1 then ⟨[m], false, true⟩
    else
      let out := collectBatch minDate maxCount (curLen + 1) rest
      ⟨m :: out.collected, out.reachedMin, out.hitMax⟩

/-- Pagination loop of `fetchAllWithPeer`.  `fetch` is the single-page
fetcher (`fetchWithPeer`), `cancel n` tells whether the context is done at
the top of the iteration that has already completed `n` pages, and the
returned trace records every issued request with its outcome.  `none`
means the fuel ran out before the Go loop terminated. -/
def fetchAllLoop (fetch : FetchOptions → Except FetchErr FetchResult)
    (cancel : Nat → Bool) (opts : FetchOptions) :
    Nat → FetchResult → FetchOptions → Nat →
    Option (Option FetchResult × Option FetchErr ×
      List (FetchOptions × Except FetchErr FetchResult))
  | 0, _, _, _ => none
  | fuel + 1, acc, batchOpts, batchNum =>
    if cancel batchNum then
      some (some (finalizeResult acc), some .canceled, [])
    else
      match fetch batchOpts with
      | .error e =>
        some (none, some (.batchFailed (batchNum + 1) e), [(batchOpts, .error e)])
      | .ok batch =>
        let acc := { acc with users := mapMerge acc.users batch.users,
                              chats := mapMerge acc.chats batch.chats }
        if batch.messages = [] then
          some (some (finalizeResult acc), none, [(batchOpts, .ok batch)])
        else
          let col := collectBatch opts.minDate opts.maxCount
            acc.messages.length batch.messages
          let acc := { acc with messages := acc.messages ++ col.collected }
          if col.hitMax then
            some (some (finalizeResult acc), none, [(batchOpts, .ok batch)])
          else if col.reachedMin || !batch.hasMore then
            some (some (finalizeResult acc), none, [(batchOpts, .ok batch)])
          else
            match fetchAllLoop fetch cancel opts fuel acc
                { batchOpts with offsetID := batch.nextID, offsetDate := none }
                (batchNum + 1) with
            | none => none
            | some (res, err, rest) =>
              some (res, err, (batchOpts, .ok batch) :: rest)

/-- fetchAllWithPeer: drives `fetch` across pages until a stop condition is
met.  The first request carries `MaxDate` plus the 24-hour buffer as its
offset timestamp; later requests paginate by the previous page's `NextID`. -/
def fetchAllWithPeer (fetch : FetchOptions → Except FetchErr FetchResult)
    (cancel : Nat → Bool) (opts : FetchOptions) (fuel : Nat) :
    Option (Option FetchResult × Option FetchErr ×
      List (FetchOptions × Except FetchErr FetchResult)) :=
  let batchOpts : FetchOptions :=
    { limit := if opts.limit ≤ 0 then 100 else opts.limit,
      offsetDate := opts.maxDate.map (fun d => d + offsetDateBuffer) }
  fetchAllLoop fetch cancel opts fuel {} batchOpts 0

/-! ## Formatting and token estimation (internal/messages/format.go,
internal/summarize/summarize.go) -/

/-- UTF-8 byte width of one code point (Go `len` counts UTF-8 bytes). -/
def csize (c : Char) : Nat :=
  if c.toNat < 0x80 then 1
  else if c.toNat < 0x800 then 2
  else if c.toNat < 0x10000 then 3
  else 4

/-- UTF-8 byte length of a rune sequence. -/
def utf8Bytes (cs : List Char) : Nat :=
  (cs.map csize).sum

/-- estimateTokens: ~4 bytes per token, but half a token per rune when more
than half of the byte count comes from multi-byte runes. -/
def estimateTokens (text : String) : Nat :=
  let charCount := utf8Bytes text.data
  let runeCount := text.data.length
  if runeCount * 2 < charCount then runeCount / 2
  else charCount / 4

/-- Civil date from days since 1970-01-01 (proleptic Gregorian). -/
def civilFromDays (z : Nat) : Nat × Nat × Nat :=
  let z := z + 719468
  let era := z / 146097
  let doe := z % 146097
  let yoe := (doe - doe / 1460 + doe / 36524 - doe / 146096) / 365
  let y := yoe + era * 400
  let doy := doe - (365 * yoe + yoe / 4 - yoe / 100)
  let mp := (5 * doy + 2) / 153
  let d := doy - (153 * mp + 2) / 5 + 1
  let m := if mp < 10 then mp + 3 else mp - 9
  (if m ≤ 2 then y + 1 else y, m, d)

/-- Zero-padded two-digit rendering. -/
def pad2 (n : Nat) : String :=
  if n < 10 then "0" ++ toString n else toString n

/-- Zero-padded four-digit rendering. -/
def pad4 (n : Nat) : String :=
  if n < 10 then "000" ++ toString n
  else if n < 100 then "00" ++ toString n
  else if n < 1000 then "0" ++ toString n
  else toString n

/-- Go `Format("2006-01-02 15:04")` of a Unix timestamp (UTC). -/
def formatTimestamp (t : Nat) : String :=
  let ymd := civilFromDays (t / 86400)
  let hh := t % 86400 / 3600
  let mi := t % 3600 / 60
  pad4 ymd.1 ++ "-" ++ pad2 ymd.2.1 ++ "-" ++ pad2 ymd.2.2 ++ " " ++
    pad2 hh ++ ":" ++ pad2 mi

/-- FormatForSummary: `[timestamp] sender_id: text`. -/
def FormatForSummary (msg : Message) : String :=
  "[" ++ formatTimestamp msg.date ++ "] " ++ toString msg.senderID ++ ": " ++
    msg.text

/-- FormatBatchForSummary: the summary lines of the batch, one per message,
skipping messages with empty text. -/
def FormatBatchForSummary (messages : List Message) : String :=
  messages.foldl
    (fun sb msg =>
      if msg.text = "" then sb else sb ++ FormatForSummary msg ++ "\n")
    ""

/-- FilterTextOnly: only messages with non-empty text. -/
def FilterTextOnly (messages : List Message) : List Message :=
  messages.filter (fun msg => msg.text ≠ "")

/-- Reverse: reverse a message list (in place in Go). -/
def Reverse (messages : List Message) : List Message :=
  messages.reverse

/-! ## Batch planner (internal/summarize/summarize.go,
splitIntoBatchesByTokens) -/

/-- Estimated token cost of one message as packed by the planner: the
estimate of its fully formatted representation. -/
def msgTokens (msg : Message) : Nat :=
  estimateTokens (FormatForSummary msg)

/-- Greedy packing loop: `currentBatch` and `currentTokens` carry the batch
being filled and its estimated cost. -/
def splitLoop (maxTokens : Int) :
    List Message → List Message → Nat → List (List Message)
  | [], currentBatch, _ => if currentBatch = [] then [] else [currentBatch]
  | msg :: rest, currentBatch, currentTokens =>
    if maxTokens < (currentTokens : Int) + msgTokens msg ∧ currentBatch ≠ [] then
      currentBatch :: splitLoop maxTokens rest [msg] (msgTokens msg)
    else
      splitLoop maxTokens rest (currentBatch ++ [msg]) (currentTokens + msgTokens msg)

/-- splitIntoBatchesByTokens: split messages into batches of approximately
`maxTokens` estimated tokens each. -/
def splitIntoBatchesByTokens (msgs : List Message) (maxTokens : Int) :
    List (List Message) :=
  if msgs = [] then [] else splitLoop maxTokens msgs [] 0

/-! ## Rolling summarizer (internal/summarize/summarize.go, Summarize) -/

/-- Provider-call failure (HTTP error, bad status, malformed body, ...). -/
inductive ProvErr where
  | fail (msg : String)
  deriving Repr, DecidableEq

/-- Errors of one summarization run, wrapped with the failing operation. -/
inductive SumErr where
  | fetchingMessages (e : FetchErr)
  | summarizingBatch (batchNum : Nat) (e : ProvErr)
  deriving Repr, DecidableEq

/-- The summarization prompt with goal, rolling summary and new messages
interpolated into the three template slots. -/
def promptTemplate (goal summary newMessages : String) : String :=
  "You are summarizing a Telegram chat conversation.\n\nUser's goal for this summary:\n"
    ++ goal
    ++ "\n\nCurrent summary so far:\n"
    ++ summary
    ++ "\n\nNew messages to incorporate:\n"
    ++ newMessages
    ++ "\n\nInstructions:\n- Focus on information relevant to the user's goal\n- Identify key topics and themes discussed\n- Note important decisions or conclusions\n- Highlight action items if any\n- Keep the summary concise but comprehensive\n- Write in the same language as the messages\n- Output as plain text (markdown allowed)\n\nUpdated summary:"

/-- Rolling loop over the batches.  The provider oracle takes the 0-based
index of the invocation; the result mirrors Go's `(string, error)` pair and
is accompanied by the list of prompts actually sent to the provider. -/
def summarizeLoop (provider : Nat → String → Except ProvErr String)
    (goal : String) :
    String → Nat → List (List Message) → (String × Option SumErr) × List String
  | runningSummary, _, [] => ((runningSummary, none), [])
  | runningSummary, i, batch :: rest =>
    let prompt := promptTemplate goal runningSummary (FormatBatchForSummary batch)
    match provider i prompt with
    | .error e => (("", some (.summarizingBatch (i + 1) e)), [prompt])
    | .ok summary =>
      let out := summarizeLoop provider goal summary.trim (i + 1) rest
      (out.1, prompt :: out.2)

/-- Summarize: rolling summarization of one fetched window.  `fetched` is
the outcome of the `FetchAll` call that opens the Go function. -/
def Summarize (provider : Nat → String → Except ProvErr String)
    (batchTokens : Int) (goal : String)
    (fetched : Except FetchErr FetchResult) :
    (String × Option SumErr) × List String :=
  match fetched with
  | .error e => (("", some (.fetchingMessages e)), [])
  | .ok result =>
    if result.messages.length = 0 then
      (("No messages found in the specified period.", none), [])
    else
      let msgs := Reverse result.messages
      let textMessages := FilterTextOnly msgs
      if textMessages.length = 0 then
        (("No text messages found in the specified period.", none), [])
      else
        summarizeLoop provider goal "" 0
          (splitIntoBatchesByTokens textMessages batchTokens)

/-! ## Progress estimator (internal/tools/message_backup.go,
backupProgress) -/

/-- Unix time of 2013-08-14 00:00:00 UTC, the platform-origin fallback. -/
def telegramLaunchDate : Nat := 1376438400

/-- The mode selection and counters of `backupProgress` (the mutex, ticker
and notification plumbing carry no progress-value state). -/
structure BackupProgress where
  useDateProgress : Bool
  totalSeconds : Int
  endTime : Nat
  countLimit : Int
  earliestMsgTime : Option Nat
  messageCount : Nat
  lastMsg : String
  deriving Repr, DecidableEq

/-- newBackupProgress: date-coverage mode iff a date filter is present and
no count limit is given; the total span is floored at one second. -/
def newBackupProgress (fromDate toDate : Option Nat) (countLimit : Int)
    (now : Nat) : BackupProgress :=
  let hasDateFilter := fromDate.isSome || toDate.isSome
  let useDate := hasDateFilter && countLimit == 0
  let endTime := if useDate then toDate.getD now else 0
  let startTime := fromDate.getD telegramLaunchDate
  let totalSeconds : Int :=
    if useDate then max 1 ((endTime : Int) - startTime) else 0
  { useDateProgress := useDate
    totalSeconds := totalSeconds
    endTime := endTime
    countLimit := countLimit
    earliestMsgTime := none
    messageCount := 0
    lastMsg := "" }

/-- UpdateEarliestTime: keep the earliest message timestamp seen so far. -/
def UpdateEarliestTime (bp : BackupProgress) (t : Nat) : BackupProgress :=
  match bp.earliestMsgTime with
  | none => { bp with earliestMsgTime := some t }
  | some e => if t < e then { bp with earliestMsgTime := some t } else bp

/-- SetMessageCount: record the number of messages collected so far. -/
def SetMessageCount (bp : BackupProgress) (count : Nat) : BackupProgress :=
  { bp with messageCount := count }

/-- Well-formedness guaranteed by the constructor: in date-coverage mode
the total span has been floored at one second. -/
def ProgressWF (bp : BackupProgress) : Prop :=
  bp.useDateProgress = true → 1 ≤ bp.totalSeconds

/-- getProgress: the emitted percentage (an exact rational modelling the Go
float64) and the nominal total. -/
def getProgress (bp : BackupProgress) : ℚ × Nat :=
  let total := 100
  let progress : ℚ :=
    if bp.useDateProgress then
      match bp.earliestMsgTime with
      | none => 0
      | some t =>
        let covered : Int := max 0 ((bp.endTime : Int) - t)
        let p : ℚ := (covered : ℚ) / (bp.totalSeconds : ℚ) * 100
        if 100 < p then 100 else p
    else
      if 0 < bp.countLimit then
        let p : ℚ := (bp.messageCount : ℚ) / (bp.countLimit : ℚ) * 100
        if 100 < p then 100 else p
      else 0
  (progress, total)

/-! ## Named pieces of the pagination step (for stating facts about the
loop; definitionally equal to the subterms of `fetchAllLoop`) -/

/-- The per-page name-cache merge of the pagination loop. -/
def mergeCaches (acc batch : FetchResult) : FetchResult :=
  { acc with users := mapMerge acc.users batch.users,
             chats := mapMerge acc.chats batch.chats }

/-- The page collection step of the pagination loop: caches merged and the
collected portion of the page appended. -/
def accWithPage (opts : FetchOptions) (acc batch : FetchResult) : FetchResult :=
  { mergeCaches acc batch with
    messages := acc.messages ++
      (collectBatch opts.minDate opts.maxCount acc.messages.length
        batch.messages).collected }

/-- The request options of the page following `batch`. -/
def nextBatchOpts (bo : FetchOptions) (batch : FetchResult) : FetchOptions :=
  { bo with offsetID := batch.nextID, offsetDate := none }

/-! ## Concrete fixtures used by witnesses and counterexamples -/

/-- A minimal message with the given id and date. -/
def wMsg (i : Int) (d : Nat) : Message :=
  { id := i, date := d, senderID := 1, senderName := "A", text := "t",
    replyToID := 0, media := none, entities := [] }

/-- A never-cancelled context. -/
def wNoCancel : Nat → Bool := fun _ => false

/-- First page of the two-page fixture chat: ids 10, 9 at dates 100, 90. -/
def wPage1 : FetchResult :=
  { messages := [wMsg 10 100, wMsg 9 90], hasMore := true, nextID := 9,
    total := 4 }

/-- Second page of the fixture chat: ids 8, 7 at dates 80, 30. -/
def wPage2 : FetchResult :=
  { messages := [wMsg 8 80, wMsg 7 30], hasMore := true, nextID := 7,
    total := 4 }

/-- A fixture platform serving the two pages keyed by the offset id. -/
def wFetch1 : FetchOptions → Except FetchErr FetchResult := fun o =>
  if o.offsetID = 0 then .ok wPage1
  else if o.offsetID = 9 then .ok wPage2
  else .ok {}

/-- Fixture options with a min-date filter cutting inside page 2. -/
def wOptsC1 : FetchOptions := { minDate := some 50 }

/-- Fixture options with a max-date filter. -/
def wOptsC5 : FetchOptions := { maxDate := some 1000 }

/-- The concrete C5 fixture run. -/
def wRunC5 : Option (Option FetchResult × Option FetchErr ×
    List (FetchOptions × Except FetchErr FetchResult)) :=
  fetchAllWithPeer wFetch1 wNoCancel wOptsC5 10

/-- Components of the C5 fixture run. -/
def wTripC5 : Option FetchResult × Option FetchErr ×
    List (FetchOptions × Except FetchErr FetchResult) :=
  wRunC5.getD (none, none, [])

/-- A fixture platform that serves page 1 and then fails. -/
def wFetchFail : FetchOptions → Except FetchErr FetchResult := fun o =>
  if o.offsetID = 0 then .ok wPage1 else .error (.gettingMessages "boom")

/-- The concrete C6 fixture run: one good page, then a failing fetch. -/
def wRunC6 : Option (Option FetchResult × Option FetchErr ×
    List (FetchOptions × Except FetchErr FetchResult)) :=
  fetchAllWithPeer wFetchFail wNoCancel {} 10

/-- Components of the C6 fixture run. -/
def wTripC6 : Option FetchResult × Option FetchErr ×
    List (FetchOptions × Except FetchErr FetchResult) :=
  wRunC6.getD (none, none, [])

/-- A raw fixture message for history-response fixtures. -/
def wTgMsg1 : TgMessage :=
  { id := 5, date := 50, message := "hi", fromID := none,
    replyToMsgID := none, media := none, entities := [] }

/-- A slice response whose platform-reported total is 44 but which carries
a single decodable message. -/
def wHistC9 : MessagesHistory := .messagesSlice 44 [.message wTgMsg1] [] []

/-- The single decoded page of `wHistC9`. -/
def wPageC9 : FetchResult :=
  (processHistory wHistC9 (.user 1)).toOption.getD {}

/-- Fixture history responses keyed by the request's offset id. -/
def wHists : FetchOptions → MessagesHistory := fun o =>
  if o.offsetID = 0 then wHistC9 else .messagesSlice 44 [] [] []

/-- Fixture platform built from `processHistory` over `wHists`. -/
def wFetchC9 : FetchOptions → Except FetchErr FetchResult := fun o =>
  processHistory (wHists o) (.user 1)

/-- The concrete C9 fixture run. -/
def wRunC9 : Option (Option FetchResult × Option FetchErr ×
    List (FetchOptions × Except FetchErr FetchResult)) :=
  fetchAllWithPeer wFetchC9 wNoCancel {} 10

/-- Components of the C9 fixture run. -/
def wTripC9 : Option FetchResult × Option FetchErr ×
    List (FetchOptions × Except FetchErr FetchResult) :=
  wRunC9.getD (none, none, [])

/-- The result of the C9 fixture run. -/
def wResC9 : FetchResult := wTripC9.1.getD {}

/-- The concrete C1 fixture run and its components. -/
def wRunC1 : Option (Option FetchResult × Option FetchErr ×
    List (FetchOptions × Except FetchErr FetchResult)) :=
  fetchAllWithPeer wFetch1 wNoCancel wOptsC1 10

/-- Components of the C1 fixture run. -/
def wTripC1 : Option FetchResult × Option FetchErr ×
    List (FetchOptions × Except FetchErr FetchResult) :=
  wRunC1.getD (none, none, [])

end Mcp

namespace Mcp

/-! # Theorems -/

/-! ## Claim C2: UTF-16 substring extraction -/

theorem utf16Width_pos (c : Char) : 1 ≤ utf16Width c := by
  unfold utf16Width
  split <;> omega

theorem utf16Len_cons (c : Char) (cs : List Char) :
    utf16Len (c :: cs) = utf16Width c + utf16Len cs := by
  simp [utf16Len]

theorem extractScan_no_stop (offset endPos : Nat) :
    ∀ (cs : List Char) (i pos : Nat) (start : Option Nat),
      pos + utf16Len cs < endPos →
      (extractScan offset endPos cs i pos start).2 = none := by
  intro cs
  induction cs with
  | nil => intro i pos start _; simp [extractScan]
  | cons c rest ih =>
    intro i pos start h
    rw [utf16Len_cons] at h
    have hw : ¬ endPos ≤ pos + utf16Width c := by omega
    simp only [extractScan, if_neg hw]
    exact ih (i + 1) (pos + utf16Width c) _ (by omega)

theorem utf16Len_ge_length (cs : List Char) : cs.length ≤ utf16Len cs := by
  induction cs with
  | nil => simp [utf16Len]
  | cons d ds ih =>
    rw [utf16Len_cons]
    have := utf16Width_pos d
    simp only [List.length_cons]
    omega

theorem extractScan_emoji (e : Char) (he : 0xFFFF < e.toNat)
    (rest : List Char) :
    ∀ (p : List Char) (i pos : Nat), pos + utf16Len p = 6 →
      extractScan 6 8 (p ++ e :: rest) i pos none =
        (some (i + p.length), some (i + p.length + 1)) := by
  intro p
  induction p with
  | nil =>
    intro i pos h
    simp only [utf16Len, List.map_nil, List.sum_nil, Nat.add_zero] at h
    subst h
    have hw : utf16Width e = 2 := by simp [utf16Width, he]
    simp [extractScan, hw]
  | cons c p' ih =>
    intro i pos h
    rw [utf16Len_cons] at h
    have hwc : 1 ≤ utf16Width c := utf16Width_pos c
    have hL : p'.length ≤ utf16Len p' := utf16Len_ge_length p'
    have h1 : ¬ 6 ≤ pos := by omega
    have h2 : ¬ (8 ≤ pos + utf16Width c) := by omega
    simp only [List.cons_append, extractScan, h1, false_and, if_false,
      if_neg h2, List.append_eq]
    rw [ih (i + 1) (pos + utf16Width c) (by omega)]
    simp only [List.length_cons, Prod.mk.injEq, Option.some.injEq]
    omega

/-- Claim C2: `extractSubstring` interprets offset and length as UTF-16 code
units: `("Hello, World!", 7, 5)` yields `"World"`; a 2-code-unit code point
sitting at UTF-16 offset 6 is extracted exactly by `(6, 2)`; and a negative
offset, a non-positive length, or a range reaching beyond the UTF-16 length
of the string yields the empty string. -/
theorem extractSubstring_utf16_spec :
    extractSubstring "Hello, World!" 7 5 = "World" ∧
    (∀ (p : List Char) (e : Char) (rest : List Char),
      utf16Len p = 6 → 0xFFFF < e.toNat →
      extractSubstring (String.mk (p ++ e :: rest)) 6 2 = String.mk [e]) ∧
    (∀ (s : String) (o l : Int),
      (o < 0 ∨ l ≤ 0 ∨ (utf16Len s.data : Int) < o + l) →
      extractSubstring s o l = "") := by
  refine ⟨by decide, ?_, ?_⟩
  · intro p e rest hp he
    have hscan := extractScan_emoji e he rest p 0 0 (by simpa using hp)
    have hneg : ¬ ((6 : Int) < 0 ∨ (2 : Int) ≤ 0) := by decide
    simp only [extractSubstring, if_neg hneg]
    rw [show (6 : Int).toNat = 6 from rfl, show (2 : Int).toNat = 2 from rfl]
    rw [show (6 + 2 : Nat) = 8 from rfl]
    rw [hscan]
    simp only [Nat.zero_add, Nat.add_sub_cancel_left]
    rw [List.drop_left]
    simp [List.take]
  · intro s o l h
    by_cases h0 : o < 0 ∨ l ≤ 0
    · simp [extractSubstring, h0]
    · push_neg at h0
      obtain ⟨ho, hl⟩ := h0
      have hol : (utf16Len s.data : Int) < o + l := by
        rcases h with h | h | h
        · omega
        · omega
        · exact h
      have hnone := extractScan_no_stop o.toNat (o.toNat + l.toNat) s.data 0 0
        none (by omega)
      have hneg : ¬ (o < 0 ∨ l ≤ 0) := by omega
      rcases hx : extractScan o.toNat (o.toNat + l.toNat) s.data 0 0 none
        with ⟨x1, x2⟩
      rw [hx] at hnone
      simp only at hnone
      subst hnone
      simp only [extractSubstring, if_neg hneg, hx]

theorem extractSubstring_utf16_spec_witness :
    (utf16Len ['H', 'e', 'l', 'l', 'o', ' '] = 6 ∧ 0xFFFF < '👋'.toNat ∧
      extractSubstring (String.mk (['H', 'e', 'l', 'l', 'o', ' '] ++
        ['👋', '!'])) 6 2 = String.mk ['👋']) ∧
    (((-1 : Int) < 0 ∨ (3 : Int) ≤ 0 ∨
        (utf16Len ("Hi" : String).data : Int) < -1 + 3) ∧
      extractSubstring "Hi" (-1) 3 = "") :=
  ⟨⟨by decide, by decide,
    extractSubstring_utf16_spec.2.1 ['H', 'e', 'l', 'l', 'o', ' '] '👋' ['!']
      (by decide) (by decide)⟩,
   ⟨Or.inl (by decide),
    extractSubstring_utf16_spec.2.2 "Hi" (-1) 3 (Or.inl (by decide))⟩⟩

/-! ## Inversion principle for one pagination step -/

theorem finalizeResult_messages (r : FetchResult) :
    (finalizeResult r).messages = r.messages := rfl

theorem mergeCaches_messages (acc batch : FetchResult) :
    (mergeCaches acc batch).messages = acc.messages := rfl

theorem accWithPage_messages (opts : FetchOptions) (acc batch : FetchResult) :
    (accWithPage opts acc batch).messages = acc.messages ++
      (collectBatch opts.minDate opts.maxCount acc.messages.length
        batch.messages).collected := rfl

theorem fetchAllLoop_succ_inv
    (fetch : FetchOptions → Except FetchErr FetchResult) (cancel : Nat → Bool)
    (opts : FetchOptions) (fuel : Nat) (acc : FetchResult) (bo : FetchOptions)
    (bn : Nat) (res : Option FetchResult) (err : Option FetchErr)
    (trace : List (FetchOptions × Except FetchErr FetchResult))
    (hrun : fetchAllLoop fetch cancel opts (fuel + 1) acc bo bn =
      some (res, err, trace)) :
    (cancel bn = true ∧ res = some (finalizeResult acc) ∧
      err = some FetchErr.canceled ∧ trace = []) ∨
    (cancel bn = false ∧ ∃ e, fetch bo = .error e ∧ res = none ∧
      err = some (.batchFailed (bn + 1) e) ∧ trace = [(bo, .error e)]) ∨
    (cancel bn = false ∧ ∃ batch, fetch bo = .ok batch ∧
      ((batch.messages = [] ∧
        res = some (finalizeResult (mergeCaches acc batch)) ∧ err = none ∧
        trace = [(bo, .ok batch)]) ∨
      (batch.messages ≠ [] ∧
        ((((collectBatch opts.minDate opts.maxCount acc.messages.length
              batch.messages).hitMax = true ∨
          (collectBatch opts.minDate opts.maxCount acc.messages.length
              batch.messages).reachedMin = true ∨
          batch.hasMore = false) ∧
          res = some (finalizeResult (accWithPage opts acc batch)) ∧
          err = none ∧ trace = [(bo, .ok batch)]) ∨
        ((collectBatch opts.minDate opts.maxCount acc.messages.length
              batch.messages).hitMax = false ∧
          (collectBatch opts.minDate opts.maxCount acc.messages.length
              batch.messages).reachedMin = false ∧
          batch.hasMore = true ∧
          ∃ rest,
            fetchAllLoop fetch cancel opts fuel (accWithPage opts acc batch)
              (nextBatchOpts bo batch) (bn + 1) = some (res, err, rest) ∧
            trace = (bo, .ok batch) :: rest))))) := by
  simp only [fetchAllLoop] at hrun
  split at hrun
  · left
    simp only [Option.some.injEq, Prod.mk.injEq] at hrun
    exact ⟨by assumption, hrun.1.symm, hrun.2.1.symm, hrun.2.2.symm⟩
  · rename_i hcancel
    split at hrun
    · rename_i e heq
      right; left
      simp only [Option.some.injEq, Prod.mk.injEq] at hrun
      exact ⟨by simpa using hcancel, e, heq, hrun.1.symm, hrun.2.1.symm,
        hrun.2.2.symm⟩
    · rename_i batch heq
      right; right
      refine ⟨by simpa using hcancel, batch, heq, ?_⟩
      split at hrun
      · rename_i hempty
        left
        simp only [Option.some.injEq, Prod.mk.injEq] at hrun
        exact ⟨hempty, hrun.1.symm, hrun.2.1.symm, hrun.2.2.symm⟩
      · rename_i hne
        right
        refine ⟨hne, ?_⟩
        split at hrun
        · rename_i hhit
          left
          simp only [Option.some.injEq, Prod.mk.injEq] at hrun
          exact ⟨Or.inl hhit, hrun.1.symm, hrun.2.1.symm, hrun.2.2.symm⟩
        · rename_i hhit
          split at hrun
          · rename_i hstop
            left
            simp only [Option.some.injEq, Prod.mk.injEq] at hrun
            rcases (Bool.or_eq_true _ _).mp hstop with hs | hs
            · exact ⟨Or.inr (Or.inl hs), hrun.1.symm, hrun.2.1.symm,
                hrun.2.2.symm⟩
            · exact ⟨Or.inr (Or.inr (by simpa using hs)), hrun.1.symm,
                hrun.2.1.symm, hrun.2.2.symm⟩
          · rename_i hstop
            right
            simp only [Bool.or_eq_true, Bool.not_eq_true'] at hstop
            push_neg at hstop
            refine ⟨by simpa using hhit,
              Bool.not_eq_true _ ▸ hstop.1, Bool.not_eq_false _ ▸ hstop.2, ?_⟩
            split at hrun
            · exact absurd hrun (by simp)
            · rename_i res' err' rest' heq2
              simp only [Option.some.injEq, Prod.mk.injEq] at hrun
              obtain ⟨h1, h2, h3⟩ := hrun
              subst h1; subst h2; subst h3
              exact ⟨rest', heq2, rfl⟩

/-! ## Claim C1: the min-date filter of FetchAll -/

theorem collectBatch_sound (d : Nat) (maxCount : Int) :
    ∀ (msgs : List Message) (curLen : Nat),
      ∀ m ∈ (collectBatch (some d) maxCount curLen msgs).collected,
        d ≤ m.date := by
  intro msgs
  induction msgs with
  | nil =>
    intro curLen m hm
    simp [collectBatch] at hm
  | cons x rest ih =>
    intro curLen m hm
    by_cases hhit : minDateHit (some d) x = true
    · simp [collectBatch, hhit] at hm
    · have hx : d ≤ x.date := by
        simp [minDateHit] at hhit
        omega
      by_cases hmax : 0 < maxCount ∧ maxCount ≤ (curLen : Int) + 1
      · simp only [collectBatch, if_neg hhit, if_pos hmax,
          List.mem_singleton] at hm
        subst hm
        exact hx
      · simp only [collectBatch, if_neg hhit, if_neg hmax,
          List.mem_cons] at hm
        rcases hm with rfl | hm
        · exact hx
        · exact ih (curLen + 1) m hm

theorem collectBatch_clean (d : Nat) (maxCount : Int) :
    ∀ (msgs : List Message) (curLen : Nat),
      (collectBatch (some d) maxCount curLen msgs).reachedMin = false →
      (collectBatch (some d) maxCount curLen msgs).hitMax = false →
      ∀ m ∈ msgs, d ≤ m.date := by
  intro msgs
  induction msgs with
  | nil =>
    intro curLen _ _ m hm
    simp at hm
  | cons x rest ih =>
    intro curLen h1 h2 m hm
    by_cases hhit : minDateHit (some d) x = true
    · simp [collectBatch, hhit] at h1
    · have hx : d ≤ x.date := by
        simp [minDateHit] at hhit
        omega
      by_cases hmax : 0 < maxCount ∧ maxCount ≤ (curLen : Int) + 1
      · simp [collectBatch, if_neg hhit, if_pos hmax] at h2
      · simp only [collectBatch, if_neg hhit, if_neg hmax] at h1 h2
        rcases List.mem_cons.mp hm with rfl | hm
        · exact hx
        · exact ih (curLen + 1) h1 h2 m hm

theorem fetchAllLoop_minDate
    (fetch : FetchOptions → Except FetchErr FetchResult) (cancel : Nat → Bool)
    (opts : FetchOptions) (d : Nat) (hmin : opts.minDate = some d) :
    ∀ (fuel : Nat) (acc : FetchResult) (bo : FetchOptions) (bn : Nat)
      (res : Option FetchResult) (err : Option FetchErr)
      (trace : List (FetchOptions × Except FetchErr FetchResult)),
      (∀ m ∈ acc.messages, d ≤ m.date) →
      fetchAllLoop fetch cancel opts fuel acc bo bn = some (res, err, trace) →
      (∀ r, res = some r → ∀ m ∈ r.messages, d ≤ m.date) ∧
      (∀ e ∈ trace.dropLast, ∀ pg, e.2 = Except.ok pg →
        ∀ m ∈ pg.messages, d ≤ m.date) := by
  intro fuel
  induction fuel with
  | zero =>
    intro acc bo bn res err trace hacc hrun
    simp [fetchAllLoop] at hrun
  | succ fuel ih =>
    intro acc bo bn res err trace hacc hrun
    rcases fetchAllLoop_succ_inv fetch cancel opts fuel acc bo bn res err
        trace hrun with
      ⟨_, hres, _, htr⟩ | ⟨_, e, _, hres, _, htr⟩ |
      ⟨_, batch, hfetch, hcases⟩
    · subst hres; subst htr
      refine ⟨?_, by simp⟩
      intro r hr
      rw [Option.some.injEq] at hr
      subst hr
      rw [finalizeResult_messages]
      exact hacc
    · subst hres; subst htr
      exact ⟨fun r hr => by simp at hr, by simp⟩
    · have haccPage :
          ∀ m ∈ (accWithPage opts acc batch).messages, d ≤ m.date := by
        rw [accWithPage_messages]
        intro m hm
        rcases List.mem_append.mp hm with hm | hm
        · exact hacc m hm
        · rw [hmin] at hm
          exact collectBatch_sound d opts.maxCount batch.messages
            acc.messages.length m hm
      rcases hcases with ⟨_, hres, _, htr⟩ | ⟨hne, hstopOr⟩
      · subst hres; subst htr
        refine ⟨?_, by simp⟩
        intro r hr
        rw [Option.some.injEq] at hr
        subst hr
        rw [finalizeResult_messages, mergeCaches_messages]
        exact hacc
      · rcases hstopOr with ⟨_, hres, _, htr⟩ |
          ⟨hhit, hrm, hmore, rest, hrec, htr⟩
        · subst hres; subst htr
          refine ⟨?_, by simp⟩
          intro r hr
          rw [Option.some.injEq] at hr
          subst hr
          rw [finalizeResult_messages]
          exact haccPage
        · subst htr
          obtain ⟨ih1, ih2⟩ := ih (accWithPage opts acc batch)
            (nextBatchOpts bo batch) (bn + 1) res err rest haccPage hrec
          refine ⟨ih1, ?_⟩
          intro e he pg hpg m hm
          cases rest with
          | nil => simp at he
          | cons r rs =>
            rw [List.dropLast_cons₂] at he
            rcases List.mem_cons.mp he with rfl | he
            · simp only at hpg
              cases hpg
              rw [hmin] at hrm hhit
              exact collectBatch_clean d opts.maxCount batch.messages
                acc.messages.length hrm hhit m hm
            · exact ih2 e he pg hpg m hm

/-- Claim C1: with `MinDate = D` set, any result `FetchAll` returns contains
no message dated strictly before `D`, and every page except the last one
fetched contains no such message either (a page containing one ends the
pagination, with only its messages at or after `D` appended). -/
theorem fetchAll_minDate_filter
    (fetch : FetchOptions → Except FetchErr FetchResult) (cancel : Nat → Bool)
    (opts : FetchOptions) (fuel : Nat) (d : Nat)
    (res : Option FetchResult) (err : Option FetchErr)
    (trace : List (FetchOptions × Except FetchErr FetchResult))
    (hmin : opts.minDate = some d)
    (hrun : fetchAllWithPeer fetch cancel opts fuel = some (res, err, trace)) :
    (∀ r, res = some r → ∀ m ∈ r.messages, d ≤ m.date) ∧
    (∀ e ∈ trace.dropLast, ∀ pg, e.2 = Except.ok pg →
      ∀ m ∈ pg.messages, d ≤ m.date) := by
  simp only [fetchAllWithPeer] at hrun
  exact fetchAllLoop_minDate fetch cancel opts d hmin fuel {} _ 0 res err
    trace (by simp) hrun

theorem fetchAll_minDate_filter_witness :
    wOptsC1.minDate = some 50 ∧
    fetchAllWithPeer wFetch1 wNoCancel wOptsC1 10 =
      some (wTripC1.1, wTripC1.2.1, wTripC1.2.2) ∧
    ((∀ r, wTripC1.1 = some r → ∀ m ∈ r.messages, 50 ≤ m.date) ∧
     (∀ e ∈ wTripC1.2.2.dropLast, ∀ pg, e.2 = Except.ok pg →
       ∀ m ∈ pg.messages, 50 ≤ m.date)) :=
  ⟨rfl, by decide,
    fetchAll_minDate_filter wFetch1 wNoCancel wOptsC1 10 50 wTripC1.1
      wTripC1.2.1 wTripC1.2.2 rfl (by decide)⟩

/-! ## Claim C5: the initial offset timestamp and the pagination cursor -/

theorem fetchAllLoop_trace_head
    (fetch : FetchOptions → Except FetchErr FetchResult) (cancel : Nat → Bool)
    (opts : FetchOptions) (fuel : Nat) (acc : FetchResult) (bo : FetchOptions)
    (bn : Nat) (res : Option FetchResult) (err : Option FetchErr)
    (trace : List (FetchOptions × Except FetchErr FetchResult))
    (hrun : fetchAllLoop fetch cancel opts fuel acc bo bn =
      some (res, err, trace)) :
    ∀ e ∈ trace.head?, e.1 = bo := by
  cases fuel with
  | zero => simp [fetchAllLoop] at hrun
  | succ fuel =>
    rcases fetchAllLoop_succ_inv fetch cancel opts fuel acc bo bn res err
        trace hrun with
      ⟨_, _, _, htr⟩ | ⟨_, e, _, _, _, htr⟩ | ⟨_, batch, _, hcases⟩
    · subst htr; simp
    · subst htr; simp
    · rcases hcases with ⟨_, _, _, htr⟩ | ⟨_, hstopOr⟩
      · subst htr; simp
      · rcases hstopOr with ⟨_, _, _, htr⟩ | ⟨_, _, _, rest, _, htr⟩
        · subst htr; simp
        · subst htr; simp

theorem fetchAllLoop_trace_chain
    (fetch : FetchOptions → Except FetchErr FetchResult) (cancel : Nat → Bool)
    (opts : FetchOptions) :
    ∀ (fuel : Nat) (acc : FetchResult) (bo : FetchOptions) (bn : Nat)
      (res : Option FetchResult) (err : Option FetchErr)
      (trace : List (FetchOptions × Except FetchErr FetchResult)),
      fetchAllLoop fetch cancel opts fuel acc bo bn = some (res, err, trace) →
      List.Chain' (fun a b => b.1.offsetDate = none ∧
        ∃ pg, a.2 = Except.ok pg ∧ b.1.offsetID = pg.nextID) trace := by
  intro fuel
  induction fuel with
  | zero =>
    intro acc bo bn res err trace hrun
    simp [fetchAllLoop] at hrun
  | succ fuel ih =>
    intro acc bo bn res err trace hrun
    rcases fetchAllLoop_succ_inv fetch cancel opts fuel acc bo bn res err
        trace hrun with
      ⟨_, _, _, htr⟩ | ⟨_, e, _, _, _, htr⟩ | ⟨_, batch, _, hcases⟩
    · subst htr; simp
    · subst htr; simp
    · rcases hcases with ⟨_, _, _, htr⟩ | ⟨_, hstopOr⟩
      · subst htr; simp
      · rcases hstopOr with ⟨_, _, _, htr⟩ | ⟨_, _, _, rest, hrec, htr⟩
        · subst htr; simp
        · subst htr
          have hchain := ih _ _ _ _ _ _ hrec
          have hhead := fetchAllLoop_trace_head fetch cancel opts fuel _ _ _
            _ _ _ hrec
          cases rest with
          | nil => simp
          | cons r rs =>
            refine List.chain'_cons.mpr ⟨?_, hchain⟩
            have hr : r.1 = nextBatchOpts bo batch := hhead r (by simp)
            exact ⟨by rw [hr]; rfl, batch, rfl, by rw [hr]; rfl⟩

/-- Claim C5: when `MaxDate` is set, the first page request carries
`MaxDate` plus the 24-hour buffer as its offset timestamp and a zero offset
id, and every subsequent request carries a zero offset timestamp and
paginates by the previous page's `NextID`. -/
theorem fetchAll_offsetDate_buffer
    (fetch : FetchOptions → Except FetchErr FetchResult) (cancel : Nat → Bool)
    (opts : FetchOptions) (fuel : Nat) (dmax : Nat)
    (res : Option FetchResult) (err : Option FetchErr)
    (trace : List (FetchOptions × Except FetchErr FetchResult))
    (hmax : opts.maxDate = some dmax)
    (hrun : fetchAllWithPeer fetch cancel opts fuel = some (res, err, trace)) :
    (∀ e ∈ trace.head?, e.1.offsetDate = some (dmax + offsetDateBuffer) ∧
      e.1.offsetID = 0) ∧
    List.Chain' (fun a b => b.1.offsetDate = none ∧
      ∃ pg, a.2 = Except.ok pg ∧ b.1.offsetID = pg.nextID) trace := by
  simp only [fetchAllWithPeer] at hrun
  constructor
  · intro e he
    have h1 := fetchAllLoop_trace_head _ _ _ _ _ _ _ _ _ _ hrun e he
    rw [h1]
    simp [hmax]
  · exact fetchAllLoop_trace_chain _ _ _ _ _ _ _ _ _ _ hrun

theorem fetchAll_offsetDate_buffer_witness :
    wOptsC5.maxDate = some 1000 ∧
    fetchAllWithPeer wFetch1 wNoCancel wOptsC5 10 =
      some (wTripC5.1, wTripC5.2.1, wTripC5.2.2) ∧
    ((∀ e ∈ wTripC5.2.2.head?,
        e.1.offsetDate = some (1000 + offsetDateBuffer) ∧ e.1.offsetID = 0) ∧
      List.Chain' (fun a b => b.1.offsetDate = none ∧
        ∃ pg, a.2 = Except.ok pg ∧ b.1.offsetID = pg.nextID) wTripC5.2.2) :=
  ⟨rfl, by decide,
    fetchAll_offsetDate_buffer wFetch1 wNoCancel wOptsC5 10 1000 wTripC5.1
      wTripC5.2.1 wTripC5.2.2 rfl (by decide)⟩

/-! ## Claim C6: what a mid-run page failure returns -/

theorem fetchAll_error_keeps_nothing_counterexample :
    wRunC6 = some (none,
      some (FetchErr.batchFailed 2 (FetchErr.gettingMessages "boom")),
      [({ limit := 100 }, Except.ok wPage1),
       ({ limit := 100, offsetID := 9 },
        Except.error (FetchErr.gettingMessages "boom"))]) ∧
    wPage1.messages.length = 2 := by
  constructor
  · decide
  · decide

theorem fetchAllLoop_error_discards
    (fetch : FetchOptions → Except FetchErr FetchResult) (cancel : Nat → Bool)
    (opts : FetchOptions) :
    ∀ (fuel : Nat) (acc : FetchResult) (bo : FetchOptions) (bn : Nat)
      (res : Option FetchResult) (err : Option FetchErr)
      (trace : List (FetchOptions × Except FetchErr FetchResult))
      (n : Nat) (e : FetchErr),
      fetchAllLoop fetch cancel opts fuel acc bo bn = some (res, err, trace) →
      err = some (.batchFailed n e) → res = none := by
  intro fuel
  induction fuel with
  | zero =>
    intro acc bo bn res err trace n e hrun _
    simp [fetchAllLoop] at hrun
  | succ fuel ih =>
    intro acc bo bn res err trace n e hrun herr
    rcases fetchAllLoop_succ_inv fetch cancel opts fuel acc bo bn res err
        trace hrun with
      ⟨_, _, herr2, _⟩ | ⟨_, e2, _, hres, _, _⟩ | ⟨_, batch, _, hcases⟩
    · rw [herr] at herr2
      simp at herr2
    · exact hres
    · rcases hcases with ⟨_, _, herr2, _⟩ | ⟨_, hstopOr⟩
      · rw [herr] at herr2
        simp at herr2
      · rcases hstopOr with ⟨_, _, herr2, _⟩ | ⟨_, _, _, rest, hrec, _⟩
        · rw [herr] at herr2
          simp at herr2
        · exact ih _ _ _ _ _ _ n e hrec herr

/-- Claim C6 (amended): when a page fetch fails partway through a FetchAll
run, the whole accumulated result is discarded: the error is returned with
a nil result, and the messages collected from earlier pages are not
returned with it. -/
theorem fetchAll_error_discards_all
    (fetch : FetchOptions → Except FetchErr FetchResult) (cancel : Nat → Bool)
    (opts : FetchOptions) (fuel : Nat)
    (res : Option FetchResult) (err : Option FetchErr)
    (trace : List (FetchOptions × Except FetchErr FetchResult))
    (n : Nat) (e : FetchErr)
    (hrun : fetchAllWithPeer fetch cancel opts fuel = some (res, err, trace))
    (herr : err = some (.batchFailed n e)) :
    res = none := by
  simp only [fetchAllWithPeer] at hrun
  exact fetchAllLoop_error_discards fetch cancel opts fuel _ _ 0 res err
    trace n e hrun herr

theorem fetchAll_error_discards_all_witness :
    fetchAllWithPeer wFetchFail wNoCancel {} 10 =
      some (wTripC6.1, wTripC6.2.1, wTripC6.2.2) ∧
    wTripC6.2.1 =
      some (FetchErr.batchFailed 2 (FetchErr.gettingMessages "boom")) ∧
    wTripC6.1 = none :=
  ⟨by decide, by decide,
    fetchAll_error_discards_all wFetchFail wNoCancel {} 10 wTripC6.1
      wTripC6.2.1 wTripC6.2.2 2 (FetchErr.gettingMessages "boom") (by decide)
      (by decide)⟩

/-! ## Claim C9: what the total field reports -/

theorem fetchAll_total_collected_counterexample :
    fetchAllWithPeer wFetchC9 wNoCancel {} 10 =
      some (some wResC9, none, wTripC9.2.2) ∧
    processHistory wHistC9 (PeerRef.user 1) = Except.ok wPageC9 ∧
    wPageC9.total = 44 ∧
    wResC9.messages.length = 1 ∧
    wResC9.total = 1 ∧
    wResC9.total ≠ wPageC9.total := by
  refine ⟨by decide, by decide, by decide, by decide, by decide, by decide⟩

theorem fetchAllLoop_total_is_collected
    (fetch : FetchOptions → Except FetchErr FetchResult) (cancel : Nat → Bool)
    (opts : FetchOptions) :
    ∀ (fuel : Nat) (acc : FetchResult) (bo : FetchOptions) (bn : Nat)
      (res : Option FetchResult) (err : Option FetchErr)
      (trace : List (FetchOptions × Except FetchErr FetchResult))
      (r : FetchResult),
      fetchAllLoop fetch cancel opts fuel acc bo bn = some (res, err, trace) →
      res = some r →
      r.total = r.messages.length ∧ r.count = r.messages.length := by
  intro fuel
  induction fuel with
  | zero =>
    intro acc bo bn res err trace r hrun _
    simp [fetchAllLoop] at hrun
  | succ fuel ih =>
    intro acc bo bn res err trace r hrun hres
    rcases fetchAllLoop_succ_inv fetch cancel opts fuel acc bo bn res err
        trace hrun with
      ⟨_, hres2, _, _⟩ | ⟨_, e2, _, hres2, _, _⟩ | ⟨_, batch, _, hcases⟩
    · rw [hres2] at hres
      rw [Option.some.injEq] at hres
      subst hres
      exact ⟨rfl, rfl⟩
    · rw [hres2] at hres
      cases hres
    · rcases hcases with ⟨_, hres2, _, _⟩ | ⟨_, hstopOr⟩
      · rw [hres2] at hres
        rw [Option.some.injEq] at hres
        subst hres
        exact ⟨rfl, rfl⟩
      · rcases hstopOr with ⟨_, hres2, _, _⟩ | ⟨_, _, _, rest, hrec, _⟩
        · rw [hres2] at hres
          rw [Option.some.injEq] at hres
          subst hres
          exact ⟨rfl, rfl⟩
        · exact ih _ _ _ _ _ _ r hrec hres

/-- Claim C9 (amended): the single-page fetch reports the platform total in
its `total` field (the slice and channel counts when the platform provides
one), while `FetchAll` overwrites `total` with the collected message count,
so its result reports `total = count = number of collected messages`. -/
theorem fetch_total_reporting :
    (∀ (hist : MessagesHistory) (peer : PeerRef) (r : FetchResult),
      processHistory hist peer = Except.ok r →
      (∀ cnt msgs users chats,
        hist = .messagesSlice cnt msgs users chats → r.total = cnt) ∧
      (∀ cnt msgs users chats,
        hist = .channelMessages cnt msgs users chats → r.total = cnt) ∧
      r.count = r.messages.length) ∧
    (∀ (fetch : FetchOptions → Except FetchErr FetchResult)
      (cancel : Nat → Bool) (opts : FetchOptions) (fuel : Nat)
      (res : Option FetchResult) (err : Option FetchErr)
      (trace : List (FetchOptions × Except FetchErr FetchResult))
      (r : FetchResult),
      fetchAllWithPeer fetch cancel opts fuel = some (res, err, trace) →
      res = some r →
      r.total = r.messages.length ∧ r.count = r.messages.length) := by
  constructor
  · intro hist peer r h
    cases hist with
    | messages msgs users chats =>
      simp only [processHistory, historyParts, Except.ok.injEq] at h
      subst h
      refine ⟨?_, ?_, rfl⟩ <;> intro cnt msgs2 users2 chats2 habs <;>
        cases habs
    | messagesSlice cnt msgs users chats =>
      simp only [processHistory, historyParts, Except.ok.injEq] at h
      subst h
      refine ⟨?_, ?_, rfl⟩
      · intro cnt2 msgs2 users2 chats2 heq
        cases heq
        rfl
      · intro cnt2 msgs2 users2 chats2 habs
        cases habs
    | channelMessages cnt msgs users chats =>
      simp only [processHistory, historyParts, Except.ok.injEq] at h
      subst h
      refine ⟨?_, ?_, rfl⟩
      · intro cnt2 msgs2 users2 chats2 habs
        cases habs
      · intro cnt2 msgs2 users2 chats2 heq
        cases heq
        rfl
    | unexpected => simp [processHistory, historyParts] at h
  · intro fetch cancel opts fuel res err trace r hrun hres
    simp only [fetchAllWithPeer] at hrun
    exact fetchAllLoop_total_is_collected fetch cancel opts fuel _ _ 0 res
      err trace r hrun hres

theorem fetch_total_reporting_witness :
    (processHistory wHistC9 (PeerRef.user 1) = Except.ok wPageC9 ∧
      wHistC9 = .messagesSlice 44 [.message wTgMsg1] [] [] ∧
      wPageC9.total = 44) ∧
    (fetchAllWithPeer wFetchC9 wNoCancel {} 10 =
        some (wTripC9.1, wTripC9.2.1, wTripC9.2.2) ∧
      wTripC9.1 = some wResC9 ∧
      wResC9.total = wResC9.messages.length ∧
      wResC9.count = wResC9.messages.length) :=
  ⟨⟨by decide, rfl,
    (fetch_total_reporting.1 wHistC9 (PeerRef.user 1) wPageC9 (by decide)).1
      44 [.message wTgMsg1] [] [] rfl⟩,
   ⟨by decide, by decide,
    (fetch_total_reporting.2 wFetchC9 wNoCancel {} 10 wTripC9.1 wTripC9.2.1
      wTripC9.2.2 wResC9 (by decide) (by decide)).1,
    (fetch_total_reporting.2 wFetchC9 wNoCancel {} 10 wTripC9.1 wTripC9.2.1
      wTripC9.2.2 wResC9 (by decide) (by decide)).2⟩⟩

/-! ## Claim C10: the HasMore flag and the pagination stop condition -/

theorem fetchAllLoop_trace_outcome
    (fetch : FetchOptions → Except FetchErr FetchResult) (cancel : Nat → Bool)
    (opts : FetchOptions) :
    ∀ (fuel : Nat) (acc : FetchResult) (bo : FetchOptions) (bn : Nat)
      (res : Option FetchResult) (err : Option FetchErr)
      (trace : List (FetchOptions × Except FetchErr FetchResult)),
      fetchAllLoop fetch cancel opts fuel acc bo bn = some (res, err, trace) →
      ∀ e ∈ trace, e.2 = fetch e.1 := by
  intro fuel
  induction fuel with
  | zero =>
    intro acc bo bn res err trace hrun
    simp [fetchAllLoop] at hrun
  | succ fuel ih =>
    intro acc bo bn res err trace hrun
    rcases fetchAllLoop_succ_inv fetch cancel opts fuel acc bo bn res err
        trace hrun with
      ⟨_, _, _, htr⟩ | ⟨_, e2, heq, _, _, htr⟩ | ⟨_, batch, heq, hcases⟩
    · subst htr
      simp
    · subst htr
      intro e he
      rw [List.mem_singleton] at he
      subst he
      exact heq.symm
    · rcases hcases with ⟨_, _, _, htr⟩ | ⟨_, hstopOr⟩
      · subst htr
        intro e he
        rw [List.mem_singleton] at he
        subst he
        exact heq.symm
      · rcases hstopOr with ⟨_, _, _, htr⟩ | ⟨_, _, _, rest, hrec, htr⟩
        · subst htr
          intro e he
          rw [List.mem_singleton] at he
          subst he
          exact heq.symm
        · subst htr
          intro e he
          rcases List.mem_cons.mp he with rfl | he
          · exact heq.symm
          · exact ih _ _ _ _ _ _ hrec e he

theorem fetchAllLoop_dropLast_hasMore
    (fetch : FetchOptions → Except FetchErr FetchResult) (cancel : Nat → Bool)
    (opts : FetchOptions) :
    ∀ (fuel : Nat) (acc : FetchResult) (bo : FetchOptions) (bn : Nat)
      (res : Option FetchResult) (err : Option FetchErr)
      (trace : List (FetchOptions × Except FetchErr FetchResult)),
      fetchAllLoop fetch cancel opts fuel acc bo bn = some (res, err, trace) →
      ∀ e ∈ trace.dropLast, ∀ pg, e.2 = Except.ok pg → pg.hasMore = true := by
  intro fuel
  induction fuel with
  | zero =>
    intro acc bo bn res err trace hrun
    simp [fetchAllLoop] at hrun
  | succ fuel ih =>
    intro acc bo bn res err trace hrun
    rcases fetchAllLoop_succ_inv fetch cancel opts fuel acc bo bn res err
        trace hrun with
      ⟨_, _, _, htr⟩ | ⟨_, e2, _, _, _, htr⟩ | ⟨_, batch, _, hcases⟩
    · subst htr; simp
    · subst htr; simp
    · rcases hcases with ⟨_, _, _, htr⟩ | ⟨_, hstopOr⟩
      · subst htr; simp
      · rcases hstopOr with ⟨_, _, _, htr⟩ |
          ⟨hhit, hrm, hmore, rest, hrec, htr⟩
        · subst htr; simp
        · subst htr
          intro e he pg hpg
          cases rest with
          | nil => simp at he
          | cons r rs =>
            rw [List.dropLast_cons₂] at he
            rcases List.mem_cons.mp he with rfl | he
            · simp only at hpg
              cases hpg
              exact hmore
            · exact ih _ _ _ _ _ _ hrec e he pg hpg

/-- Claim C10: a decoded page's `HasMore` flag is true exactly when at least
one message was decoded and the decoded count is strictly below the reported
total; every page except the last one fetched by FetchAll has
`HasMore = true`; and when pages come from `processHistory`, a page whose
reported total equals its own decoded message count is necessarily the last
page fetched (its decoded count is not below its total). -/
theorem processHistory_hasMore_spec :
    (∀ (hist : MessagesHistory) (peer : PeerRef) (r : FetchResult),
      processHistory hist peer = Except.ok r →
      (r.hasMore = true ↔
        0 < r.messages.length ∧ r.messages.length < r.total)) ∧
    (∀ (fetch : FetchOptions → Except FetchErr FetchResult)
      (cancel : Nat → Bool) (opts : FetchOptions) (fuel : Nat)
      (res : Option FetchResult) (err : Option FetchErr)
      (trace : List (FetchOptions × Except FetchErr FetchResult)),
      fetchAllWithPeer fetch cancel opts fuel = some (res, err, trace) →
      ∀ e ∈ trace.dropLast, ∀ pg, e.2 = Except.ok pg →
        pg.hasMore = true) ∧
    (∀ (hists : FetchOptions → MessagesHistory) (peer : PeerRef)
      (cancel : Nat → Bool) (opts : FetchOptions) (fuel : Nat)
      (res : Option FetchResult) (err : Option FetchErr)
      (trace : List (FetchOptions × Except FetchErr FetchResult)),
      fetchAllWithPeer (fun o => processHistory (hists o) peer) cancel opts
        fuel = some (res, err, trace) →
      ∀ e ∈ trace.dropLast, ∀ pg, e.2 = Except.ok pg →
        pg.messages.length < pg.total) := by
  have hpart1 : ∀ (hist : MessagesHistory) (peer : PeerRef) (r : FetchResult),
      processHistory hist peer = Except.ok r →
      (r.hasMore = true ↔
        0 < r.messages.length ∧ r.messages.length < r.total) := by
    intro hist peer r h
    cases hist with
    | messages msgs users chats =>
      simp only [processHistory, historyParts, Except.ok.injEq] at h
      subst h
      simp [Bool.and_eq_true, decide_eq_true_iff]
    | messagesSlice cnt msgs users chats =>
      simp only [processHistory, historyParts, Except.ok.injEq] at h
      subst h
      simp [Bool.and_eq_true, decide_eq_true_iff]
    | channelMessages cnt msgs users chats =>
      simp only [processHistory, historyParts, Except.ok.injEq] at h
      subst h
      simp [Bool.and_eq_true, decide_eq_true_iff]
    | unexpected => simp [processHistory, historyParts] at h
  have hpart2 : ∀ (fetch : FetchOptions → Except FetchErr FetchResult)
      (cancel : Nat → Bool) (opts : FetchOptions) (fuel : Nat)
      (res : Option FetchResult) (err : Option FetchErr)
      (trace : List (FetchOptions × Except FetchErr FetchResult)),
      fetchAllWithPeer fetch cancel opts fuel = some (res, err, trace) →
      ∀ e ∈ trace.dropLast, ∀ pg, e.2 = Except.ok pg →
        pg.hasMore = true := by
    intro fetch cancel opts fuel res err trace hrun
    simp only [fetchAllWithPeer] at hrun
    exact fetchAllLoop_dropLast_hasMore fetch cancel opts fuel _ _ 0 res err
      trace hrun
  refine ⟨hpart1, hpart2, ?_⟩
  intro hists peer cancel opts fuel res err trace hrun e he pg hpg
  have hout : e.2 = processHistory (hists e.1) peer := by
    have hmem : e ∈ trace := List.mem_of_mem_dropLast he
    have := fetchAllLoop_trace_outcome _ cancel opts fuel _ _ 0 res err trace
      (by simpa only [fetchAllWithPeer] using hrun) e hmem
    exact this
  have hproc : processHistory (hists e.1) peer = Except.ok pg := by
    rw [← hout, hpg]
  have hiff := hpart1 (hists e.1) peer pg hproc
  have hmore := hpart2 _ cancel opts fuel res err trace hrun e he pg hpg
  exact (hiff.mp hmore).2

theorem processHistory_hasMore_spec_witness :
    (processHistory wHistC9 (PeerRef.user 1) = Except.ok wPageC9 ∧
      (wPageC9.hasMore = true ↔
        0 < wPageC9.messages.length ∧
          wPageC9.messages.length < wPageC9.total)) ∧
    (fetchAllWithPeer wFetchC9 wNoCancel {} 10 =
        some (wTripC9.1, wTripC9.2.1, wTripC9.2.2) ∧
      ∀ e ∈ wTripC9.2.2.dropLast, ∀ pg, e.2 = Except.ok pg →
        pg.messages.length < pg.total) :=
  ⟨⟨by decide,
    processHistory_hasMore_spec.1 wHistC9 (PeerRef.user 1) wPageC9
      (by decide)⟩,
   ⟨by decide,
    processHistory_hasMore_spec.2.2 wHists (PeerRef.user 1) wNoCancel {} 10
      wTripC9.1 wTripC9.2.1 wTripC9.2.2 (by decide)⟩⟩

/-! ## Claim C4: the empty-window short circuit of Summarize -/

/-- Claim C4: when the fetched window is empty, Summarize returns exactly
the fixed string, no error, and an empty list of provider calls. -/
theorem summarize_empty_window
    (provider : Nat → String → Except ProvErr String) (batchTokens : Int)
    (goal : String) (r : FetchResult) (h : r.messages = []) :
    Summarize provider batchTokens goal (Except.ok r) =
      (("No messages found in the specified period.", none), []) := by
  simp [Summarize, h]

theorem summarize_empty_window_witness :
    ({} : FetchResult).messages = [] ∧
    Summarize (fun _ _ => Except.ok "s") 8000 "find decisions"
      (Except.ok {}) =
      (("No messages found in the specified period.", none), []) :=
  ⟨rfl, summarize_empty_window (fun _ _ => Except.ok "s") 8000
    "find decisions" {} rfl⟩

/-! ## Claim C7: a provider failure aborts the rolling summarization -/

theorem summarizeLoop_abort
    (provider : Nat → String → Except ProvErr String) (goal : String)
    (e : ProvErr) :
    ∀ (k : Nat) (batches : List (List Message)) (i0 : Nat) (running : String),
      k < batches.length →
      (∀ j, j < k → ∀ p, ∃ s, provider (i0 + j) p = Except.ok s) →
      (∀ p, provider (i0 + k) p = Except.error e) →
      (summarizeLoop provider goal running i0 batches).1 =
        ("", some (.summarizingBatch (i0 + k + 1) e)) ∧
      (summarizeLoop provider goal running i0 batches).2.length = k + 1 := by
  intro k
  induction k with
  | zero =>
    intro batches i0 running hk hsucc hfail
    cases batches with
    | nil => simp at hk
    | cons b rest =>
      have hp := hfail (promptTemplate goal running (FormatBatchForSummary b))
      rw [Nat.add_zero] at hp
      simp [summarizeLoop, hp]
  | succ k ih =>
    intro batches i0 running hk hsucc hfail
    cases batches with
    | nil => simp at hk
    | cons b rest =>
      obtain ⟨s, hs⟩ := hsucc 0 (Nat.succ_pos k)
        (promptTemplate goal running (FormatBatchForSummary b))
      rw [Nat.add_zero] at hs
      have hrec := ih rest (i0 + 1) s.trim (by simpa using hk)
        (fun j hj p => by
          have h := hsucc (j + 1) (by omega) p
          rwa [show i0 + (j + 1) = i0 + 1 + j by omega] at h)
        (fun p => by
          have h := hfail p
          rwa [show i0 + (k + 1) = i0 + 1 + k by omega] at h)
      have hidx : i0 + 1 + k = i0 + (k + 1) := by omega
      rw [hidx] at hrec
      simp only [summarizeLoop, hs]
      exact ⟨hrec.1, by simp [hrec.2]⟩

/-- Claim C7: if the provider call for the (0-based) batch `k` fails while
all earlier calls succeed, Summarize returns an empty summary together with
an error carrying the 1-based index `k + 1`, and exactly `k + 1` provider
calls were issued (none for any later batch). -/
theorem summarize_provider_failure
    (provider : Nat → String → Except ProvErr String) (batchTokens : Int)
    (goal : String) (r : FetchResult) (k : Nat) (e : ProvErr)
    (hk : k < (splitIntoBatchesByTokens
      (FilterTextOnly (Reverse r.messages)) batchTokens).length)
    (hsucc : ∀ j, j < k → ∀ p, ∃ s, provider j p = Except.ok s)
    (hfail : ∀ p, provider k p = Except.error e) :
    (Summarize provider batchTokens goal (Except.ok r)).1 =
      ("", some (SumErr.summarizingBatch (k + 1) e)) ∧
    (Summarize provider batchTokens goal (Except.ok r)).2.length = k + 1 := by
  have hne : ¬ r.messages.length = 0 := by
    intro h
    rw [List.length_eq_zero] at h
    rw [h] at hk
    simp [Reverse, FilterTextOnly, splitIntoBatchesByTokens] at hk
  have htm : ¬ (FilterTextOnly (Reverse r.messages)).length = 0 := by
    intro h
    rw [List.length_eq_zero] at h
    rw [h] at hk
    simp [splitIntoBatchesByTokens] at hk
  simp only [Summarize, if_neg hne, if_neg htm]
  have habort := summarizeLoop_abort provider goal e k
    (splitIntoBatchesByTokens (FilterTextOnly (Reverse r.messages))
      batchTokens) 0 "" hk
    (fun j hj p => by
      have h := hsucc j hj p
      rwa [show j = 0 + j by omega] at h)
    (fun p => by
      have h := hfail p
      rwa [show k = 0 + k by omega] at h)
  rw [Nat.zero_add] at habort
  exact habort

theorem summarize_provider_failure_witness :
    (0 < (splitIntoBatchesByTokens
      (FilterTextOnly (Reverse [wMsg 1 0])) 8000).length ∧
      (∀ j, j < 0 → ∀ p,
        ∃ s, (fun (n : Nat) (_ : String) =>
          if n = 0 then Except.error (ProvErr.fail "x")
          else Except.ok "s") j p = Except.ok s) ∧
      (∀ p, (fun (n : Nat) (_ : String) =>
        if n = 0 then Except.error (ProvErr.fail "x")
        else Except.ok "s") 0 p = Except.error (ProvErr.fail "x"))) ∧
    (Summarize (fun (n : Nat) (_ : String) =>
        if n = 0 then Except.error (ProvErr.fail "x") else Except.ok "s")
      8000 "g" (Except.ok { messages := [wMsg 1 0] })).1 =
      ("", some (SumErr.summarizingBatch 1 (ProvErr.fail "x"))) ∧
    (Summarize (fun (n : Nat) (_ : String) =>
        if n = 0 then Except.error (ProvErr.fail "x") else Except.ok "s")
      8000 "g" (Except.ok { messages := [wMsg 1 0] })).2.length = 1 :=
  ⟨⟨by decide, fun j hj p => absurd hj (by omega), fun p => rfl⟩,
   (summarize_provider_failure _ 8000 "g" { messages := [wMsg 1 0] } 0
      (ProvErr.fail "x") (by decide) (fun j hj p => absurd hj (by omega))
      (fun p => rfl)).1,
   (summarize_provider_failure _ 8000 "g" { messages := [wMsg 1 0] } 0
      (ProvErr.fail "x") (by decide) (fun j hj p => absurd hj (by omega))
      (fun p => rfl)).2⟩

/-! ## Claim C3: the greedy token-budget batch planner -/

theorem csize_pos (c : Char) : 1 ≤ csize c := by
  unfold csize
  split
  · omega
  split
  · omega
  split
  · omega
  · omega

theorem utf8Bytes_cons (c : Char) (cs : List Char) :
    utf8Bytes (c :: cs) = csize c + utf8Bytes cs := by
  simp [utf8Bytes]

theorem utf8Bytes_ge_len (cs : List Char) : cs.length ≤ utf8Bytes cs := by
  induction cs with
  | nil => simp [utf8Bytes]
  | cons c cs ih =>
    rw [utf8Bytes_cons]
    have := csize_pos c
    simp only [List.length_cons]
    omega

theorem string_data_length (s : String) : s.data.length = s.length := rfl

theorem formatForSummary_len (m : Message) :
    5 ≤ (FormatForSummary m).length := by
  simp only [FormatForSummary, String.length_append]
  have h1 : ("[" : String).length = 1 := rfl
  have h2 : ("] " : String).length = 2 := rfl
  have h3 : (": " : String).length = 2 := rfl
  omega

theorem msgTokens_pos (m : Message) : 1 ≤ msgTokens m := by
  have h5 : 5 ≤ (FormatForSummary m).data.length := by
    rw [string_data_length]
    exact formatForSummary_len m
  have hb := utf8Bytes_ge_len (FormatForSummary m).data
  simp only [msgTokens, estimateTokens]
  split
  · omega
  · omega

theorem map_sum_nil (f : Message → Nat) :
    (([] : List Message).map f).sum = 0 := by
  simp

theorem map_sum_singleton (f : Message → Nat) (x : Message) :
    ([x].map f).sum = f x := by
  simp

theorem map_sum_cons (f : Message → Nat) (x : Message) (l : List Message) :
    ((x :: l).map f).sum = f x + (l.map f).sum := by
  simp

theorem map_sum_append (f : Message → Nat) (cur : List Message)
    (x : Message) :
    ((cur ++ [x]).map f).sum = (cur.map f).sum + f x := by
  simp

theorem splitLoop_flatten (maxT : Int) :
    ∀ (msgs cur : List Message) (tks : Nat),
      (splitLoop maxT msgs cur tks).flatten = cur ++ msgs := by
  intro msgs
  induction msgs with
  | nil =>
    intro cur tks
    by_cases h : cur = []
    · simp [splitLoop, h]
    · simp [splitLoop, h]
  | cons x rest ih =>
    intro cur tks
    by_cases hc : maxT < (tks : Int) + msgTokens x ∧ cur ≠ []
    · simp only [splitLoop, if_pos hc, List.flatten_cons]
      rw [ih]
      simp
    · simp only [splitLoop, if_neg hc]
      rw [ih]
      simp

theorem splitLoop_batch_ne_nil (maxT : Int) :
    ∀ (msgs cur : List Message) (tks : Nat) (b : List Message),
      b ∈ splitLoop maxT msgs cur tks → b ≠ [] := by
  intro msgs
  induction msgs with
  | nil =>
    intro cur tks b hb
    by_cases h : cur = []
    · simp [splitLoop, h] at hb
    · simp only [splitLoop, if_neg h, List.mem_singleton] at hb
      subst hb
      exact h
  | cons x rest ih =>
    intro cur tks b hb
    by_cases hc : maxT < (tks : Int) + msgTokens x ∧ cur ≠ []
    · simp only [splitLoop, if_pos hc, List.mem_cons] at hb
      rcases hb with rfl | hb
      · exact hc.2
      · exact ih _ _ b hb
    · simp only [splitLoop, if_neg hc] at hb
      exact ih _ _ b hb

theorem splitLoop_oversized (maxT : Int) :
    ∀ (msgs cur : List Message) (tks : Nat),
      tks = (cur.map msgTokens).sum →
      (∀ m ∈ cur, maxT < (msgTokens m : Int) → cur = [m]) →
      ∀ b ∈ splitLoop maxT msgs cur tks, ∀ m ∈ b,
        maxT < (msgTokens m : Int) → b = [m] := by
  intro msgs
  induction msgs with
  | nil =>
    intro cur tks _ hP b hb m hm hover
    by_cases h : cur = []
    · simp [splitLoop, h] at hb
    · simp only [splitLoop, if_neg h, List.mem_singleton] at hb
      subst hb
      exact hP m hm hover
  | cons x rest ih =>
    intro cur tks htks hP b hb m hm hover
    by_cases hc : maxT < (tks : Int) + msgTokens x ∧ cur ≠ []
    · simp only [splitLoop, if_pos hc, List.mem_cons] at hb
      rcases hb with rfl | hb
      · exact hP m hm hover
      · refine ih [x] (msgTokens x) (map_sum_singleton msgTokens x).symm ?_
          b hb m hm hover
        intro y hy _
        rw [List.mem_singleton] at hy
        subst hy
        rfl
    · simp only [splitLoop, if_neg hc] at hb
      refine ih (cur ++ [x]) (tks + msgTokens x) ?_ ?_ b hb m hm hover
      · rw [map_sum_append]
        omega
      · intro y hy hovery
        by_cases hcur : cur = []
        · subst hcur
          simp only [List.nil_append, List.mem_singleton] at hy
          subst hy
          rfl
        · exfalso
          have hA : ¬ (maxT < (tks : Int) + msgTokens x) :=
            fun hA => hc ⟨hA, hcur⟩
          push_neg at hA
          rcases List.mem_append.mp hy with hy | hy
          · have hle : msgTokens y ≤ (cur.map msgTokens).sum :=
              List.single_le_sum (fun a _ => Nat.zero_le a) _
                (List.mem_map_of_mem msgTokens hy)
            omega
          · rw [List.mem_singleton] at hy
            subst hy
            omega

theorem splitLoop_small_batch (maxT : Int) :
    ∀ (msgs cur : List Message) (tks : Nat),
      tks = (cur.map msgTokens).sum →
      (2 ≤ cur.length → (tks : Int) ≤ maxT) →
      ∀ b ∈ splitLoop maxT msgs cur tks, 2 ≤ b.length →
        ((b.map msgTokens).sum : Int) ≤ maxT := by
  intro msgs
  induction msgs with
  | nil =>
    intro cur tks htks hInv b hb hb2
    by_cases h : cur = []
    · simp [splitLoop, h] at hb
    · simp only [splitLoop, if_neg h, List.mem_singleton] at hb
      subst hb
      rw [← htks]
      exact hInv hb2
  | cons x rest ih =>
    intro cur tks htks hInv b hb hb2
    by_cases hc : maxT < (tks : Int) + msgTokens x ∧ cur ≠ []
    · simp only [splitLoop, if_pos hc, List.mem_cons] at hb
      rcases hb with rfl | hb
      · rw [← htks]
        exact hInv hb2
      · refine ih [x] (msgTokens x) (map_sum_singleton msgTokens x).symm ?_
          b hb hb2
        intro habs
        simp at habs
    · simp only [splitLoop, if_neg hc] at hb
      refine ih (cur ++ [x]) (tks + msgTokens x) ?_ ?_ b hb hb2
      · rw [map_sum_append]
        omega
      · intro h2
        by_cases hcur : cur = []
        · subst hcur
          simp at h2
        · have hA : ¬ (maxT < (tks : Int) + msgTokens x) :=
            fun hA => hc ⟨hA, hcur⟩
          push_neg at hA
          omega

theorem splitLoop_first (maxT : Int) :
    ∀ (msgs cur : List Message) (tks : Nat), cur ≠ [] →
      ∃ ext bs, splitLoop maxT msgs cur tks = (cur ++ ext) :: bs := by
  intro msgs
  induction msgs with
  | nil =>
    intro cur tks h
    exact ⟨[], [], by simp [splitLoop, h]⟩
  | cons x rest ih =>
    intro cur tks h
    by_cases hc : maxT < (tks : Int) + msgTokens x ∧ cur ≠ []
    · exact ⟨[], splitLoop maxT rest [x] (msgTokens x),
        by simp [splitLoop, if_pos hc]⟩
    · obtain ⟨ext, bs, hext⟩ := ih (cur ++ [x]) (tks + msgTokens x) (by simp)
      refine ⟨[x] ++ ext, bs, ?_⟩
      simp only [splitLoop, if_neg hc]
      rw [hext]
      simp

theorem splitLoop_chain (maxT : Int) :
    ∀ (msgs cur : List Message) (tks : Nat),
      tks = (cur.map msgTokens).sum →
      List.Chain' (fun b1 b2 => ∀ h ∈ b2.head?,
        maxT < ((b1.map msgTokens).sum : Int) + msgTokens h)
        (splitLoop maxT msgs cur tks) := by
  intro msgs
  induction msgs with
  | nil =>
    intro cur tks _
    by_cases h : cur = []
    · simp [splitLoop, h]
    · simp [splitLoop, h]
  | cons x rest ih =>
    intro cur tks htks
    by_cases hc : maxT < (tks : Int) + msgTokens x ∧ cur ≠ []
    · simp only [splitLoop, if_pos hc]
      refine List.chain'_cons'.mpr
        ⟨?_, ih [x] (msgTokens x) (map_sum_singleton msgTokens x).symm⟩
      intro y hy h hh
      obtain ⟨ext, bs, hext⟩ :=
        splitLoop_first maxT rest [x] (msgTokens x) (by simp)
      rw [hext] at hy
      simp only [List.head?_cons, Option.mem_def, Option.some.injEq] at hy
      subst hy
      simp only [List.singleton_append, List.head?_cons, Option.mem_def,
        Option.some.injEq] at hh
      subst hh
      rw [← htks]
      exact hc.1
    · simp only [splitLoop, if_neg hc]
      refine ih (cur ++ [x]) (tks + msgTokens x) ?_
      rw [map_sum_append]
      omega

theorem splitLoop_all_eq (maxT : Int) (hpos : 0 < maxT) :
    ∀ (msgs : List Message) (m : Message),
      (msgTokens m : Int) = maxT →
      (∀ y ∈ msgs, (msgTokens y : Int) = maxT) →
      splitLoop maxT msgs [m] (msgTokens m) =
        [m] :: msgs.map (fun y => [y]) := by
  intro msgs
  induction msgs with
  | nil =>
    intro m _ _
    simp [splitLoop]
  | cons x rest ih =>
    intro m hm hall
    have hx : (msgTokens x : Int) = maxT := hall x (by simp)
    have hc : maxT < ((msgTokens m : Nat) : Int) + msgTokens x ∧
        ([m] : List Message) ≠ [] := by
      constructor
      · omega
      · simp
    simp only [splitLoop, if_pos hc]
    rw [ih x hx (fun y hy => hall y (by simp [hy]))]
    simp

theorem splitLoop_fits (maxT : Int) :
    ∀ (msgs cur : List Message) (tks : Nat), cur ≠ [] →
      ((tks + (msgs.map msgTokens).sum : Nat) : Int) ≤ maxT →
      splitLoop maxT msgs cur tks = [cur ++ msgs] := by
  intro msgs
  induction msgs with
  | nil =>
    intro cur tks h _
    simp [splitLoop, h]
  | cons x rest ih =>
    intro cur tks h hfit
    rw [map_sum_cons] at hfit
    have hnc : ¬ (maxT < (tks : Int) + msgTokens x ∧ cur ≠ []) := by
      intro hcon
      have := hcon.1
      omega
    simp only [splitLoop, if_neg hnc]
    rw [ih (cur ++ [x]) (tks + msgTokens x) (by simp) (by omega)]
    simp

theorem splitIntoBatches_empty_counterexample :
    splitIntoBatchesByTokens [] 100 = [] ∧
    ((([] : List Message).map msgTokens).sum : Int) ≤ 100 ∧
    (splitIntoBatchesByTokens [] 100).length ≠ 1 := by
  refine ⟨by simp [splitIntoBatchesByTokens], by simp,
    by simp [splitIntoBatchesByTokens]⟩

/-- Claim C3 (amended): the planner packs greedily and in order — the
batches concatenate back to the input; every batch is non-empty; a batch of
two or more messages fits the budget; each batch boundary is forced (the
previous batch plus the next batch's first message would overflow); a batch
containing a message estimated above `maxTokens` is that message alone; N
messages each estimated at exactly `maxTokens` give N singleton batches;
and a NON-EMPTY list whose total estimate is at most `maxTokens` gives one
batch with all messages in order (the empty list gives no batch at all,
not one batch as the claim as stated would require). -/
theorem splitIntoBatchesByTokens_greedy :
    (∀ (msgs : List Message) (maxT : Int),
      (splitIntoBatchesByTokens msgs maxT).flatten = msgs) ∧
    (∀ (msgs : List Message) (maxT : Int) (b : List Message),
      b ∈ splitIntoBatchesByTokens msgs maxT → b ≠ []) ∧
    (∀ (msgs : List Message) (maxT : Int) (b : List Message),
      b ∈ splitIntoBatchesByTokens msgs maxT → 2 ≤ b.length →
      ((b.map msgTokens).sum : Int) ≤ maxT) ∧
    (∀ (msgs : List Message) (maxT : Int),
      List.Chain' (fun b1 b2 => ∀ h ∈ b2.head?,
        maxT < ((b1.map msgTokens).sum : Int) + msgTokens h)
        (splitIntoBatchesByTokens msgs maxT)) ∧
    (∀ (msgs : List Message) (maxT : Int) (b : List Message) (m : Message),
      b ∈ splitIntoBatchesByTokens msgs maxT → m ∈ b →
      maxT < (msgTokens m : Int) → b = [m]) ∧
    (∀ (msgs : List Message) (maxT : Int),
      (∀ m ∈ msgs, (msgTokens m : Int) = maxT) →
      splitIntoBatchesByTokens msgs maxT = msgs.map (fun m => [m])) ∧
    (∀ (msgs : List Message) (maxT : Int), msgs ≠ [] →
      ((msgs.map msgTokens).sum : Int) ≤ maxT →
      splitIntoBatchesByTokens msgs maxT = [msgs]) := by
  refine ⟨?_, ?_, ?_, ?_, ?_, ?_, ?_⟩
  · intro msgs maxT
    by_cases h : msgs = []
    · simp [splitIntoBatchesByTokens, h]
    · simp only [splitIntoBatchesByTokens, if_neg h]
      rw [splitLoop_flatten]
      simp
  · intro msgs maxT b hb
    by_cases h : msgs = []
    · simp [splitIntoBatchesByTokens, h] at hb
    · simp only [splitIntoBatchesByTokens, if_neg h] at hb
      exact splitLoop_batch_ne_nil maxT msgs [] 0 b hb
  · intro msgs maxT b hb hb2
    by_cases h : msgs = []
    · simp [splitIntoBatchesByTokens, h] at hb
    · simp only [splitIntoBatchesByTokens, if_neg h] at hb
      exact splitLoop_small_batch maxT msgs [] 0
        (map_sum_nil msgTokens).symm (fun habs => by simp at habs) b hb hb2
  · intro msgs maxT
    by_cases h : msgs = []
    · simp [splitIntoBatchesByTokens, h]
    · simp only [splitIntoBatchesByTokens, if_neg h]
      exact splitLoop_chain maxT msgs [] 0 (map_sum_nil msgTokens).symm
  · intro msgs maxT b m hb hm hover
    by_cases h : msgs = []
    · simp [splitIntoBatchesByTokens, h] at hb
    · simp only [splitIntoBatchesByTokens, if_neg h] at hb
      exact splitLoop_oversized maxT msgs [] 0 (map_sum_nil msgTokens).symm
        (fun y hy => by simp at hy) b hb m hm hover
  · intro msgs maxT hall
    cases msgs with
    | nil => simp [splitIntoBatchesByTokens]
    | cons m rest =>
      have hm : (msgTokens m : Int) = maxT := hall m (by simp)
      have hpos : 0 < maxT := by
        have := msgTokens_pos m
        omega
      have hnc : ¬ (maxT < ((0 : Nat) : Int) + msgTokens m ∧
          ([] : List Message) ≠ []) := by
        intro hcon
        exact hcon.2 rfl
      simp only [splitIntoBatchesByTokens, if_neg (List.cons_ne_nil m rest),
        splitLoop, if_neg hnc, List.nil_append, Nat.zero_add]
      rw [splitLoop_all_eq maxT hpos rest m hm
        (fun y hy => hall y (by simp [hy]))]
      simp
  · intro msgs maxT hne hfit
    cases msgs with
    | nil => exact absurd rfl hne
    | cons m rest =>
      have hnc : ¬ (maxT < ((0 : Nat) : Int) + msgTokens m ∧
          ([] : List Message) ≠ []) := by
        intro hcon
        exact hcon.2 rfl
      rw [map_sum_cons] at hfit
      simp only [splitIntoBatchesByTokens, if_neg (List.cons_ne_nil m rest),
        splitLoop, if_neg hnc, List.nil_append, Nat.zero_add]
      rw [splitLoop_fits maxT rest [m] (msgTokens m) (by simp) (by omega)]
      simp

theorem splitIntoBatchesByTokens_greedy_witness :
    ((∀ m ∈ [wMsg 1 0, wMsg 2 0], (msgTokens m : Int) = 5) ∧
      splitIntoBatchesByTokens [wMsg 1 0, wMsg 2 0] 5 =
        [[wMsg 1 0], [wMsg 2 0]]) ∧
    (([wMsg 1 0, wMsg 2 0] : List Message) ≠ [] ∧
      (([wMsg 1 0, wMsg 2 0].map msgTokens).sum : Int) ≤ 10 ∧
      splitIntoBatchesByTokens [wMsg 1 0, wMsg 2 0] 10 =
        [[wMsg 1 0, wMsg 2 0]]) ∧
    ([wMsg 1 0] ∈ splitIntoBatchesByTokens [wMsg 1 0] 3 ∧
      (3 : Int) < msgTokens (wMsg 1 0) ∧
      ([wMsg 1 0] : List Message) = [wMsg 1 0]) ∧
    ([wMsg 1 0, wMsg 2 0] ∈
        splitIntoBatchesByTokens [wMsg 1 0, wMsg 2 0] 10 ∧
      2 ≤ ([wMsg 1 0, wMsg 2 0] : List Message).length ∧
      (([wMsg 1 0, wMsg 2 0].map msgTokens).sum : Int) ≤ 10) :=
  ⟨⟨by decide, splitIntoBatchesByTokens_greedy.2.2.2.2.2.1
      [wMsg 1 0, wMsg 2 0] 5 (by decide)⟩,
   ⟨by decide, by decide, splitIntoBatchesByTokens_greedy.2.2.2.2.2.2
      [wMsg 1 0, wMsg 2 0] 10 (by decide) (by decide)⟩,
   ⟨by decide, by decide, splitIntoBatchesByTokens_greedy.2.2.2.2.1
      [wMsg 1 0] 3 [wMsg 1 0] (wMsg 1 0) (by decide) (by decide)
      (by decide)⟩,
   ⟨by decide, by decide, splitIntoBatchesByTokens_greedy.2.2.1
      [wMsg 1 0, wMsg 2 0] 10 [wMsg 1 0, wMsg 2 0] (by decide)
      (by decide)⟩⟩

/-! ## Claim C8: the dual-mode progress estimator -/

theorem clamp100_mono (p q : ℚ) (h : p ≤ q) :
    (if 100 < p then (100 : ℚ) else p) ≤
      (if 100 < q then (100 : ℚ) else q) := by
  split <;> split <;> linarith

theorem clamp100_range (p : ℚ) (hp : 0 ≤ p) :
    0 ≤ (if 100 < p then (100 : ℚ) else p) ∧
      (if 100 < p then (100 : ℚ) else p) ≤ 100 := by
  split <;> constructor <;> linarith

theorem updateEarliest_fields (bp : BackupProgress) (t : Nat) :
    (UpdateEarliestTime bp t).useDateProgress = bp.useDateProgress ∧
    (UpdateEarliestTime bp t).totalSeconds = bp.totalSeconds ∧
    (UpdateEarliestTime bp t).endTime = bp.endTime ∧
    (UpdateEarliestTime bp t).countLimit = bp.countLimit ∧
    (UpdateEarliestTime bp t).messageCount = bp.messageCount := by
  obtain ⟨u, ts, et, cl, em, mc, lm⟩ := bp
  cases em with
  | none => exact ⟨rfl, rfl, rfl, rfl, rfl⟩
  | some e =>
    refine ⟨?_, ?_, ?_, ?_, ?_⟩ <;>
      (unfold UpdateEarliestTime; split <;> (try split) <;> rfl)

theorem getProgress_total (bp : BackupProgress) : (getProgress bp).2 = 100 :=
  rfl

theorem getProgress_range (bp : BackupProgress) (hwf : ProgressWF bp) :
    0 ≤ (getProgress bp).1 ∧ (getProgress bp).1 ≤ 100 := by
  simp only [getProgress]
  split
  · rename_i hdate
    split
    · norm_num
    · rename_i t _
      have hT : 1 ≤ bp.totalSeconds := hwf hdate
      have hp : 0 ≤ ((max 0 ((bp.endTime : Int) - t) : Int) : ℚ) /
          (bp.totalSeconds : ℚ) * 100 := by
        apply mul_nonneg
        · apply div_nonneg
          · exact_mod_cast le_max_left 0 ((bp.endTime : Int) - t)
          · exact_mod_cast (by omega : (0 : Int) ≤ bp.totalSeconds)
        · norm_num
      exact clamp100_range _ hp
  · split
    · rename_i hcl
      have hp : 0 ≤ (bp.messageCount : ℚ) / (bp.countLimit : ℚ) * 100 := by
        apply mul_nonneg
        · apply div_nonneg
          · positivity
          · exact_mod_cast le_of_lt hcl
        · norm_num
      exact clamp100_range _ hp
    · norm_num

theorem getProgress_fresh_date (bp : BackupProgress)
    (hdate : bp.useDateProgress = true) (hE : bp.earliestMsgTime = none) :
    (getProgress bp).1 = 0 := by
  simp [getProgress, hdate, hE]

theorem getProgress_update_mono (bp : BackupProgress) (t : Nat)
    (hwf : ProgressWF bp) :
    (getProgress bp).1 ≤ (getProgress (UpdateEarliestTime bp t)).1 := by
  obtain ⟨hf1, hf2, hf3, hf4, hf5⟩ := updateEarliest_fields bp t
  by_cases hdate : bp.useDateProgress = true
  · cases hE : bp.earliestMsgTime with
    | none =>
      rw [getProgress_fresh_date bp hdate hE]
      have hwf2 : ProgressWF (UpdateEarliestTime bp t) := by
        intro h
        rw [hf2]
        exact hwf (by rwa [hf1] at h)
      exact (getProgress_range _ hwf2).1
    | some e =>
      have hupd : UpdateEarliestTime bp t =
          if t < e then { bp with earliestMsgTime := some t } else bp := by
        unfold UpdateEarliestTime
        rw [hE]
      rw [hupd]
      split
      · rename_i hlt
        have hT : 1 ≤ bp.totalSeconds := hwf hdate
        simp only [getProgress, hdate, if_true, hE]
        apply clamp100_mono
        have hcov : ((max 0 ((bp.endTime : Int) - e) : Int) : ℚ) ≤
            ((max 0 ((bp.endTime : Int) - t) : Int) : ℚ) := by
          have : (max 0 ((bp.endTime : Int) - e)) ≤
              max 0 ((bp.endTime : Int) - t) := by omega
          exact_mod_cast this
        have hTq : (0 : ℚ) < (bp.totalSeconds : ℚ) := by
          exact_mod_cast (by omega : (0 : Int) < bp.totalSeconds)
        gcongr
      · exact le_refl _
  · have hfalse : bp.useDateProgress = false := by
      rwa [Bool.not_eq_true] at hdate
    have h2 : (UpdateEarliestTime bp t).useDateProgress = false := by
      rw [hf1]
      exact hfalse
    simp only [getProgress, hfalse, h2, Bool.false_eq_true, if_false, hf4,
      hf5]
    exact le_refl _

theorem getProgress_setCount_mono (bp : BackupProgress) (c : Nat)
    (h : bp.messageCount ≤ c) :
    (getProgress bp).1 ≤ (getProgress (SetMessageCount bp c)).1 := by
  by_cases hdate : bp.useDateProgress = true
  · simp only [getProgress, SetMessageCount, hdate, if_true]
    exact le_refl _
  · have hfalse : bp.useDateProgress = false := by
      rwa [Bool.not_eq_true] at hdate
    simp only [getProgress, SetMessageCount, hfalse, Bool.false_eq_true,
      if_false]
    split
    · rename_i hcl
      apply clamp100_mono
      have hc : (bp.messageCount : ℚ) ≤ (c : ℚ) := by exact_mod_cast h
      have hTq : (0 : ℚ) < (bp.countLimit : ℚ) := by exact_mod_cast hcl
      gcongr
    · exact le_refl _

theorem getProgress_count_formula (bp : BackupProgress)
    (hdate : bp.useDateProgress = false) (hcl : 0 < bp.countLimit) :
    (getProgress bp).1 =
      min ((bp.messageCount : ℚ) / (bp.countLimit : ℚ) * 100) 100 := by
  simp only [getProgress, hdate, Bool.false_eq_true, if_false, if_pos hcl]
  split
  · rename_i hgt
    exact (min_eq_right (le_of_lt hgt)).symm
  · rename_i hle
    exact (min_eq_left (le_of_not_lt hle)).symm

theorem getProgress_no_limit (bp : BackupProgress)
    (hdate : bp.useDateProgress = false) (hcl : bp.countLimit ≤ 0) :
    (getProgress bp).1 = 0 := by
  have hncl : ¬ 0 < bp.countLimit := by omega
  simp [getProgress, hdate, if_neg hncl]

theorem newBackupProgress_wf (fromDate toDate : Option Nat)
    (countLimit : Int) (now : Nat) :
    ProgressWF (newBackupProgress fromDate toDate countLimit now) ∧
    (newBackupProgress fromDate toDate countLimit now).earliestMsgTime =
      none := by
  constructor
  · intro h
    simp only [newBackupProgress] at h ⊢
    rw [if_pos h]
    exact le_max_left 1 _
  · rfl

/-- Claim C8: every emitted snapshot has nominal total 100 and a progress
value in [0, 100]; the constructor establishes the floor invariant with no
timestamp observed yet; in date-coverage mode the value is 0 before any
message is observed and never decreases as earlier timestamps are
observed; recording a larger collected count never decreases the value; in
count mode the value is collected/limit*100 clamped to 100, and stays 0
when no positive limit is set. -/
theorem backupProgress_spec :
    (∀ bp : BackupProgress, (getProgress bp).2 = 100) ∧
    (∀ bp : BackupProgress, ProgressWF bp →
      0 ≤ (getProgress bp).1 ∧ (getProgress bp).1 ≤ 100) ∧
    (∀ (fromDate toDate : Option Nat) (countLimit : Int) (now : Nat),
      ProgressWF (newBackupProgress fromDate toDate countLimit now) ∧
      (newBackupProgress fromDate toDate countLimit now).earliestMsgTime =
        none) ∧
    (∀ bp : BackupProgress, bp.useDateProgress = true →
      bp.earliestMsgTime = none → (getProgress bp).1 = 0) ∧
    (∀ (bp : BackupProgress) (t : Nat), ProgressWF bp →
      (getProgress bp).1 ≤ (getProgress (UpdateEarliestTime bp t)).1) ∧
    (∀ (bp : BackupProgress) (c : Nat), bp.messageCount ≤ c →
      (getProgress bp).1 ≤ (getProgress (SetMessageCount bp c)).1) ∧
    (∀ bp : BackupProgress, bp.useDateProgress = false →
      0 < bp.countLimit →
      (getProgress bp).1 =
        min ((bp.messageCount : ℚ) / (bp.countLimit : ℚ) * 100) 100) ∧
    (∀ bp : BackupProgress, bp.useDateProgress = false →
      bp.countLimit ≤ 0 → (getProgress bp).1 = 0) :=
  ⟨getProgress_total, getProgress_range, newBackupProgress_wf,
    getProgress_fresh_date, getProgress_update_mono,
    getProgress_setCount_mono, getProgress_count_formula,
    getProgress_no_limit⟩

theorem backupProgress_spec_witness :
    (ProgressWF (newBackupProgress (some 0) (some 100) 0 123) ∧
      0 ≤ (getProgress (newBackupProgress (some 0) (some 100) 0 123)).1 ∧
      (getProgress (newBackupProgress (some 0) (some 100) 0 123)).1 ≤ 100) ∧
    ((newBackupProgress (some 0) (some 100) 0 123).useDateProgress = true ∧
      (newBackupProgress (some 0) (some 100) 0 123).earliestMsgTime =
        none ∧
      (getProgress (newBackupProgress (some 0) (some 100) 0 123)).1 = 0) ∧
    ((getProgress (newBackupProgress (some 0) (some 100) 0 123)).1 ≤
      (getProgress
        (UpdateEarliestTime (newBackupProgress (some 0) (some 100) 0 123)
          50)).1) ∧
    ((newBackupProgress none none 10 0).messageCount ≤ 5 ∧
      (getProgress (newBackupProgress none none 10 0)).1 ≤
        (getProgress
          (SetMessageCount (newBackupProgress none none 10 0) 5)).1) ∧
    ((SetMessageCount (newBackupProgress none none 10 0)
        5).useDateProgress = false ∧
      0 < (SetMessageCount (newBackupProgress none none 10 0) 5).countLimit ∧
      (getProgress (SetMessageCount (newBackupProgress none none 10 0)
          5)).1 =
        min (((SetMessageCount (newBackupProgress none none 10 0)
            5).messageCount : ℚ) /
          ((SetMessageCount (newBackupProgress none none 10 0)
            5).countLimit : ℚ) * 100) 100) ∧
    ((newBackupProgress none none 0 7).useDateProgress = false ∧
      (newBackupProgress none none 0 7).countLimit ≤ 0 ∧
      (getProgress (newBackupProgress none none 0 7)).1 = 0) :=
  ⟨⟨fun _ => by decide,
    backupProgress_spec.2.1 (newBackupProgress (some 0) (some 100) 0 123)
      (fun _ => by decide)⟩,
   ⟨by decide, by decide,
    backupProgress_spec.2.2.2.1 (newBackupProgress (some 0) (some 100) 0 123)
      (by decide) (by decide)⟩,
   backupProgress_spec.2.2.2.2.1 (newBackupProgress (some 0) (some 100) 0 123)
     50 (fun _ => by decide),
   ⟨by decide,
    backupProgress_spec.2.2.2.2.2.1 (newBackupProgress none none 10 0) 5
      (by decide)⟩,
   ⟨by decide, by decide,
    backupProgress_spec.2.2.2.2.2.2.1
      (SetMessageCount (newBackupProgress none none 10 0) 5) (by decide)
      (by decide)⟩,
   ⟨by decide, by decide,
    backupProgress_spec.2.2.2.2.2.2.2 (newBackupProgress none none 0 7)
      (by decide) (by decide)⟩⟩

end Mcp
